import Mathlib

/-!
# Verification of the cpptraj DSSP / DBSCAN analysis core

Shallow embedding of the secondary-structure assignment engine
(`Action_DSSP.cpp`) and the density-based clustering engine
(`Cluster_DBSCAN.cpp`) of the cpptraj trajectory analysis toolkit,
together with proofs settling the specification claims about them.

Machine doubles are modelled as rationals (`ℚ`); an IEEE division whose
result is not a real number (NaN / infinity, as produced by dividing by
a zero frame counter) is modelled as `none : Option ℚ`.  C++ `vector<T>`
state is modelled by Lean lists with explicit default-valued indexing
(`List.getD`), matching the source's index discipline.
-/

namespace Cpptraj

/-! ## DSSP: data model (Action_DSSP.h / Action_DSSP.cpp)

The secondary-structure type enumeration.  The order of constructors is
fixed by the parallel arrays `DSSP::SSname = {"None","Para","Anti","3-10",
"Alpha","Pi","Turn"}` and `DSSP::SSchar` in `Action_DSSP.cpp`, which are
indexed directly by the enumeration value. -/

inductive SStype where
  | SECSTRUCT_NULL
  | SECSTRUCT_PARA
  | SECSTRUCT_ANTI
  | SECSTRUCT_3_10
  | SECSTRUCT_ALPHA
  | SECSTRUCT_PI
  | SECSTRUCT_TURN
deriving DecidableEq, Repr

/-- Numeric value of an `SStype` enumerator (its index into `SSchar`,
`SSname` and `SSprob`). -/
def sstypeIdx : SStype → Nat
  | .SECSTRUCT_NULL => 0
  | .SECSTRUCT_PARA => 1
  | .SECSTRUCT_ANTI => 2
  | .SECSTRUCT_3_10 => 3
  | .SECSTRUCT_ALPHA => 4
  | .SECSTRUCT_PI => 5
  | .SECSTRUCT_TURN => 6

/-- `const char DSSP::SSchar[7] = { '0', 'b', 'B', 'G', 'H', 'I', 'T' }`,
indexed by the `SStype` enumeration. -/
def SSchar : SStype → Char
  | .SECSTRUCT_NULL => '0'
  | .SECSTRUCT_PARA => 'b'
  | .SECSTRUCT_ANTI => 'B'
  | .SECSTRUCT_3_10 => 'G'
  | .SECSTRUCT_ALPHA => 'H'
  | .SECSTRUCT_PI => 'I'
  | .SECSTRUCT_TURN => 'T'

/-- Per-residue record (`struct Residue` of Action_DSSP).  Backbone atom
indices are `Int` with `-1` meaning "absent", exactly as in the source.
The hydrogen-bond adjacency row `CO_HN_Hbond` is a `vector<int>` holding
0/1 in the source; it is modelled as a list of booleans.  `SSprob` is the
array of 7 running occurrence counters (doubles in the source). -/
structure Residue where
  sstype : SStype
  isSelected : Bool
  C : Int
  O : Int
  N : Int
  H : Int
  CO_HN_Hbond : List Bool
  SSprob : List ℚ
deriving DecidableEq, Repr

/-- Default residue record, as initialized in `DSSP::setup`. -/
def nullRes : Residue :=
  { sstype := .SECSTRUCT_NULL
    isSelected := false
    C := -1
    O := -1
    N := -1
    H := -1
    CO_HN_Hbond := []
    SSprob := List.replicate 7 0 }

/-- `E = DSSP_fac * (1/rON + 1/rCH - 1/rOH - 1/rCN)`: the Kabsch-Sander
electrostatic hydrogen-bond energy computed in `DSSP::action`.  The
scaling factor `fac` (`DSSP_fac`, declared in the Action_DSSP header) and
the per-frame atom-pair distance function `dist` (`Frame::DIST`) are
parameters. -/
def kabschSanderE (fac : ℚ) (dist : Int → Int → ℚ) (c o n h : Int) : ℚ :=
  let rON := dist o n
  let rCH := dist c h
  let rOH := dist o h
  let rCN := dist c n
  fac * (1/rON + 1/rCH - 1/rOH - 1/rCN)

/-- The row `CO_HN_Hbond` computed for a selected residue `resi` having
both C and O atoms: the inner `resj` loop of the hydrogen-bond phase of
`DSSP::action` (entry `resj` is set to 1 exactly when the guards pass and
`E < -0.5`, and keeps its reset value 0 otherwise). -/
def computeRow (fac : ℚ) (dist : Int → Int → ℚ) (Nres : Nat)
    (SS : List Residue) (resi : Nat) (Ri : Residue) : List Bool :=
  (List.range Nres).map (fun resj =>
    let Rj := SS.getD resj nullRes
    if Rj.isSelected = true ∧ resi ≠ resj ∧ Rj.H ≠ -1 ∧ Rj.N ≠ -1 then
      decide (kabschSanderE fac dist Ri.C Ri.O Rj.N Rj.H < -1/2)
    else false)

/-- The hydrogen-bond phase of `DSSP::action` (the first `resi` loop):
for every selected residue with index `< Nres` the previous structure
assignment is reset to `SECSTRUCT_NULL` and the adjacency row is reset
and recomputed; unselected residues (and residues beyond `Nres`, which
can exist when a previous topology had more residues) are untouched.
Each iteration writes only residue `resi`'s record and reads only fields
the phase never writes, so the sequential fold equals the OpenMP-parallel
source loop. -/
def hbondPhase (fac : ℚ) (dist : Int → Int → ℚ) (Nres : Nat)
    (SS : List Residue) : List Residue :=
  (List.range SS.length).map (fun resi =>
    let Ri := SS.getD resi nullRes
    if resi < Nres ∧ Ri.isSelected = true then
      let Ri' := { Ri with sstype := .SECSTRUCT_NULL
                           CO_HN_Hbond := List.replicate Nres false }
      if Ri.C = -1 ∨ Ri.O = -1 then Ri'
      else { Ri' with CO_HN_Hbond := computeRow fac dist Nres SS resi Ri }
    else Ri)

/-- `DSSP::isBonded(res1,res2)`: 1 iff both residue numbers are in range,
both residues selected, and residue `res1`'s CO bonds `res2`'s NH.
Residue numbers are `Int` because callers pass expressions like
`resi - 1`. -/
def isBonded (Nres : Nat) (SS : List Residue) (res1 res2 : Int) : Bool :=
  if res1 < 0 then false
  else if res2 < 0 then false
  else if (Nres : Int) ≤ res1 then false
  else if (Nres : Int) ≤ res2 then false
  else
    let R1 := SS.getD res1.toNat nullRes
    let R2 := SS.getD res2.toNat nullRes
    if R1.isSelected = false then false
    else if R2.isSelected = false then false
    else R1.CO_HN_Hbond.getD res2.toNat false

/-- `DSSP::SSassign(res1,res2,typeIn)`: assign `typeIn` to all selected
residues in `[res1, res2)` that are still `SECSTRUCT_NULL`, stopping at
`Nres` (the source loop breaks on `res == Nres`; all call sites have
`res1 ≤ Nres`). -/
def SSassign (Nres : Nat) (typeIn : SStype) (res1 res2 : Nat)
    (SS : List Residue) : List Residue :=
  (List.range SS.length).map (fun r =>
    let R := SS.getD r nullRes
    if res1 ≤ r ∧ r < res2 ∧ r < Nres ∧ R.isSelected = true ∧
        R.sstype = SStype.SECSTRUCT_NULL then
      { R with sstype := typeIn }
    else R)

/-- Overwrite residue `r`'s structure type (the direct
`SecStruct[resi].sstype = ...` writes of the beta-sheet branch). -/
def setSstype (SS : List Residue) (r : Nat) (t : SStype) : List Residue :=
  SS.set r { SS.getD r nullRes with sstype := t }

/-- The beta-sheet search of `DSSP::action`: scan candidate partner
residues in order, return the sheet type of the first selected `resj`
with `|resi - resj| > 2` matching the parallel pattern, else the
anti-parallel pattern (parallel checked first for each `resj`). -/
def betaSearch (Nres : Nat) (SS : List Residue) (resi : Nat) :
    List Nat → Option SStype
  | [] => none
  | resj :: rest =>
    let Rj := SS.getD resj nullRes
    if Rj.isSelected = true ∧ 2 < ((resi : Int) - (resj : Int)).natAbs then
      if (isBonded Nres SS ((resi : Int) - 1) resj ∧
          isBonded Nres SS resj ((resi : Int) + 1)) ∨
         (isBonded Nres SS ((resj : Int) - 1) resi ∧
          isBonded Nres SS resi ((resj : Int) + 1)) then
        some .SECSTRUCT_PARA
      else if (isBonded Nres SS ((resi : Int) - 1) ((resj : Int) + 1) ∧
               isBonded Nres SS ((resj : Int) - 1) ((resi : Int) + 1)) ∨
              (isBonded Nres SS resi resj ∧ isBonded Nres SS resj resi) then
        some .SECSTRUCT_ANTI
      else betaSearch Nres SS resi rest
    else betaSearch Nres SS resi rest

/-- The beta-sheet block of one initial-assignment iteration: the
search runs only when residue `resi` is still unassigned (the source
guards the whole sheet loop by `sstype == SECSTRUCT_NULL`). -/
def betaFound (Nres : Nat) (SS : List Residue) (resi : Nat) :
    Option SStype :=
  if (SS.getD resi nullRes).sstype = SStype.SECSTRUCT_NULL then
    betaSearch Nres SS resi (List.range Nres)
  else none

/-- One iteration of the initial secondary-structure assignment loop of
`DSSP::action` (alpha, beta, 3-10, pi in priority order) for residue
`resi`.  The alpha branch fires on the bond pattern alone (its
`SSassign` only writes still-unassigned residues); the beta search runs
only when `resi` is still unassigned, and when it assigns a sheet type
the iteration ends; otherwise the 3-10 and pi patterns are tried. -/
def classifyStep (Nres : Nat) (SS : List Residue) (resi : Nat) :
    List Residue :=
  if (SS.getD resi nullRes).isSelected = false then SS
  else if isBonded Nres SS ((resi : Int) - 1) ((resi : Int) + 3) = true ∧
          isBonded Nres SS resi ((resi : Int) + 4) = true then
    SSassign Nres .SECSTRUCT_ALPHA resi (resi + 4) SS
  else
    match betaFound Nres SS resi with
    | some t => setSstype SS resi t
    | none =>
      if isBonded Nres SS ((resi : Int) - 1) ((resi : Int) + 2) = true ∧
         isBonded Nres SS resi ((resi : Int) + 3) = true then
        SSassign Nres .SECSTRUCT_3_10 resi (resi + 3) SS
      else if isBonded Nres SS ((resi : Int) - 1) ((resi : Int) + 4) = true ∧
              isBonded Nres SS resi ((resi : Int) + 5) = true then
        SSassign Nres .SECSTRUCT_PI resi (resi + 5) SS
      else SS

/-- One iteration of the Turn assignment loop of `DSSP::action` for
residue `resi`: span lengths are tried in the order 5, 4, 3 (the source
loop `for (resj=5; resj>2; resj--)` with a `break` at the first bonded
span), and the winning span labels residues `resi+1 .. resi+span-1`
wherever still unassigned. -/
def turnStep (Nres : Nat) (SS : List Residue) (resi : Nat) : List Residue :=
  if (SS.getD resi nullRes).isSelected = false then SS
  else if isBonded Nres SS resi ((resi : Int) + 5) = true then
    SSassign Nres .SECSTRUCT_TURN (resi + 1) (resi + 5) SS
  else if isBonded Nres SS resi ((resi : Int) + 4) = true then
    SSassign Nres .SECSTRUCT_TURN (resi + 1) (resi + 4) SS
  else if isBonded Nres SS resi ((resi : Int) + 3) = true then
    SSassign Nres .SECSTRUCT_TURN (resi + 1) (resi + 3) SS
  else SS

/-- The initial secondary-structure assignment pass over all residues. -/
def classifyPhase (Nres : Nat) (SS : List Residue) : List Residue :=
  (List.range Nres).foldl (classifyStep Nres) SS

/-- The Turn assignment pass over all residues. -/
def turnPhase (Nres : Nat) (SS : List Residue) : List Residue :=
  (List.range Nres).foldl (turnStep Nres) SS

/-- Steps of the whole per-frame classification, numbered `0 ≤ k < 2*Nres`:
the first `Nres` are the initial-assignment iterations, the rest the Turn
iterations. -/
def ssStep (Nres : Nat) (SS : List Residue) (k : Nat) : List Residue :=
  if k < Nres then classifyStep Nres SS k else turnStep Nres SS (k - Nres)

/-- State of the residue table after the first `k` classification steps
of a frame. -/
def runSteps (Nres : Nat) (SS : List Residue) (k : Nat) : List Residue :=
  (List.range k).foldl (ssStep Nres) SS

/-- The per-frame output line of single-character codes, one per selected
residue (the `SSline[resj++] = SSchar[...]` loop of `DSSP::action`). -/
def ssLine (Nres : Nat) (SS : List Residue) : List Char :=
  ((List.range Nres).filter (fun r => (SS.getD r nullRes).isSelected)).map
    (fun r => SSchar (SS.getD r nullRes).sstype)

/-- Increment entry `i` of a counter array. -/
def bumpAt (l : List ℚ) (i : Nat) : List ℚ := l.set i (l.getD i 0 + 1)

/-- The accumulation step of `DSSP::action`:
`SecStruct[resi].SSprob[SecStruct[resi].sstype]++` for selected residues. -/
def accumStep (SS : List Residue) (r : Nat) : List Residue :=
  let R := SS.getD r nullRes
  if R.isSelected = true then
    SS.set r { R with SSprob := bumpAt R.SSprob (sstypeIdx R.sstype) }
  else SS

/-- The accumulation pass over all residues. -/
def accumPhase (Nres : Nat) (SS : List Residue) : List Residue :=
  (List.range Nres).foldl accumStep SS

/-- `DSSP::action` for one frame: hydrogen-bond matrix, initial
assignment, Turn assignment, then accumulation; returns the new residue
table, the incremented frame counter and the output line. -/
def dsspAction (fac : ℚ) (dist : Int → Int → ℚ) (Nres : Nat)
    (SS : List Residue) (Nframe : ℚ) : List Residue × ℚ × List Char :=
  let SS1 := hbondPhase fac dist Nres SS
  let SS2 := classifyPhase Nres SS1
  let SS3 := turnPhase Nres SS2
  (accumPhase Nres SS3, Nframe + 1, ssLine Nres SS3)

/-- One division of the final averaging loop of `DSSP::print`:
`avg = SecStruct[resi].SSprob[ss] / Nframe`.  The source performs the
IEEE double division unconditionally; when `Nframe = 0` that division
produces NaN (or ±infinity), which is not a rational number and is
modelled as `none`. -/
def printAvg (ssprob nframe : ℚ) : Option ℚ :=
  if nframe = 0 then none else some (ssprob / nframe)

/-- The six per-residue averages emitted by `DSSP::print` for one
selected residue (the `for (ss=1; ss<7; ss++)` loop). -/
def printResidueAverages (R : Residue) (nframe : ℚ) : List (Option ℚ) :=
  (List.range' 1 6).map (fun ss => printAvg (R.SSprob.getD ss 0) nframe)

/-! ## DBSCAN: data model (Cluster_DBSCAN.cpp)

Frame statuses `UNASSIGNED = 'U'`, `NOISE = 'N'`, `INCLUSTER = 'C'`. -/

inductive FrameStatus where
  | UNASSIGNED
  | NOISE
  | INCLUSTER
deriving DecidableEq, Repr

/-- The clustering inputs: the number of frames, the `minpoints` and
`epsilon` parameters, the pairwise frame distance matrix
(`FrameDistances_`, a symmetric triangular matrix: `dmat` is consulted
on the ordered pair `(min i j, max i j)`, which makes
`GetElement(i,j) = GetElement(j,i)` hold by construction, as for the
source's triangle-storage matrix), and the sieve predicate
(`FrameDistances_.IgnoringRow`). -/
structure DBParams where
  nframes : Nat
  minPoints : Int
  epsilon : ℚ
  dmat : Nat → Nat → ℚ
  ignoring : Nat → Bool

/-- `FrameDistances_.GetElement(i,j)` (triangular, hence symmetric). -/
def DBParams.getElement (P : DBParams) (i j : Nat) : ℚ :=
  P.dmat (min i j) (max i j)

/-- The frames being clustered: all frame indices whose matrix row is
not ignored (the first loop of `Cluster_DBSCAN::Cluster`). -/
def framesToCluster (P : DBParams) : List Nat :=
  (List.range P.nframes).filter (fun f => !P.ignoring f)

/-- `Cluster_DBSCAN::RegionQuery`: the frames of the candidate set other
than `point` at distance strictly less than `epsilon`. -/
def regionQuery (P : DBParams) (point : Nat) : List Nat :=
  (framesToCluster P).filter
    (fun q => decide (q ≠ point) && decide (P.getElement point q < P.epsilon))

/-- Mutable state of `Cluster_DBSCAN::Cluster`: the `Visited` array, the
`Status_` array, the current `cluster_frames` being expanded, and the
recorded cluster list. -/
structure DBState where
  visited : List Bool
  status : List FrameStatus
  cframes : List Nat
  clusters : List (List Nat)
deriving Repr

/-- Visited lookup.  Out-of-range indices read as visited, which is
sound because every index the algorithm visits is a candidate frame
index `< nframes` = the array length. -/
def visGet (v : List Bool) (i : Nat) : Bool := v.getD i true

/-- Status lookup (out of range reads `UNASSIGNED`). -/
def stGet (st : List FrameStatus) (i : Nat) : FrameStatus :=
  st.getD i .UNASSIGNED

/-- Insertion of one element into a sorted list (helper for the
`std::sort` call on `cluster_frames`). -/
def insSorted (a : Nat) : List Nat → List Nat
  | [] => [a]
  | b :: t => if a ≤ b then a :: b :: t else b :: insSorted a t

/-- Sorting of a list of frame indices.  `std::sort` produces the sorted
permutation of its input; for a list of numbers that result is unique,
so insertion sort computes exactly the same list. -/
def sortNat : List Nat → List Nat
  | [] => []
  | a :: t => insSorted a (sortNat t)

/-- Removal of consecutive duplicates (`std::unique` followed by the
`resize`). -/
def uniqConsec : List Nat → List Nat
  | [] => []
  | [a] => [a]
  | a :: b :: t => if a = b then uniqConsec (b :: t) else a :: uniqConsec (b :: t)

/-- The duplicate-removal step applied to `cluster_frames` before
`AddCluster`: sort, then drop consecutive duplicates. -/
def sortUnique (l : List Nat) : List Nat := uniqConsec (sortNat l)

theorem count_false_set_true {v : List Bool} {n : Nat}
    (h : visGet v n = false) : (v.set n true).count false < v.count false := by
  induction v generalizing n with
  | nil => simp [visGet] at h
  | cons b t ih =>
    cases n with
    | zero =>
      simp [visGet] at h
      subst h
      simp [List.count_cons]
    | succ m =>
      have h' : visGet t m = false := h
      simp only [List.set]
      simp only [List.count_cons]
      have := ih h'
      omega

/-- The `if (Status_[neighbor_pt] != INCLUSTER)` block of the expansion
loop: append a not-yet-clustered frame to `cluster_frames` and mark it
`INCLUSTER`. -/
def addToCluster (n : Nat) (s : DBState) : DBState :=
  if stGet s.status n ≠ FrameStatus.INCLUSTER then
    { s with cframes := s.cframes ++ [n]
             status := s.status.set n .INCLUSTER }
  else s

theorem addToCluster_visited (n : Nat) (s : DBState) :
    (addToCluster n s).visited = s.visited := by
  unfold addToCluster
  split <;> rfl

/-- The cluster-expansion loop of `Cluster_DBSCAN::Cluster` (the indexed
loop over the growing `NeighborPts` vector): process the worklist in
order; an unvisited neighbor is marked visited, its region query is run
and, if it is a core point, its neighbors are appended to the worklist;
any processed neighbor not yet `INCLUSTER` is appended to
`cluster_frames` and marked `INCLUSTER`.

The extra `fuel` argument bounds the number of iterations so the
recursion is structural; the caller supplies `expandFuel`, which is
proved sufficient (`expand_drains` below): every step either newly
visits a frame — the worklist can grow by at most `nframes` entries only
in that case — or shortens the worklist, so the source loop performs
fewer than `expandFuel` iterations and the cutoff branch is never
reached. -/
def expand (P : DBParams) : Nat → List Nat → DBState → DBState
  | _, [], s => s
  | 0, _ :: _, s => s
  | fuel + 1, n :: rest, s =>
    if visGet s.visited n = true then
      expand P fuel rest (addToCluster n s)
    else
      let s1 := { s with visited := s.visited.set n true }
      let npts2 := regionQuery P n
      let growth := if P.minPoints ≤ (npts2.length : Int) then npts2 else []
      expand P fuel (rest ++ growth) (addToCluster n s1)

/-- An upper bound on the number of iterations the expansion loop can
still perform from a given worklist and visited array. -/
def expandFuel (P : DBParams) (queue : List Nat) (s : DBState) : Nat :=
  queue.length + s.visited.count false * (P.nframes + 1)

/-- One iteration of the outer loop of `Cluster_DBSCAN::Cluster` for the
candidate frame `point`: an unvisited point is visited and either marked
`NOISE` (fewer than `minpoints` neighbors) or used to seed and expand a
new cluster, which is then deduplicated and recorded. -/
def clusterStep (P : DBParams) (s : DBState) (point : Nat) : DBState :=
  if visGet s.visited point = true then s
  else
    let s1 := { s with visited := s.visited.set point true }
    let neighborPts := regionQuery P point
    if (neighborPts.length : Int) < P.minPoints then
      { s1 with status := s1.status.set point .NOISE }
    else
      let s1' := { s1 with cframes := [point] }
      let s2 := expand P (expandFuel P neighborPts s1') neighborPts s1'
      { s2 with clusters := s2.clusters ++ [sortUnique s2.cframes]
                cframes := [] }

/-- The outer loop of `Cluster_DBSCAN::Cluster` over a list of candidate
frames. -/
def clusterLoop (P : DBParams) (s : DBState) : List Nat → DBState
  | [] => s
  | point :: rest => clusterLoop P (clusterStep P s point) rest

/-- Initial state of `Cluster_DBSCAN::Cluster`: nothing visited, all
statuses `UNASSIGNED`, no clusters. -/
def initState (P : DBParams) : DBState :=
  { visited := List.replicate P.nframes false
    status := List.replicate P.nframes .UNASSIGNED
    cframes := []
    clusters := [] }

/-- `Cluster_DBSCAN::Cluster`: run the outer loop over the non-ignored
frames.  (The subsequent centroid-distance matrix computation touches
neither `Status_` nor the cluster frame lists and is not modelled.) -/
def cluster (P : DBParams) : DBState :=
  clusterLoop P (initState P) (framesToCluster P)

/-- The number of frames whose final status is `INCLUSTER`. -/
def nonNoiseCount (P : DBParams) : Nat :=
  (List.range P.nframes).countP
    (fun f => stGet (cluster P).status f == FrameStatus.INCLUSTER)

/-- The `#NOISE_FRAMES` listing of `Cluster_DBSCAN::ClusterResults`:
the (1-based) indices of the frames whose status is `NOISE`. -/
def noiseFrames (status : List FrameStatus) : List Nat :=
  ((List.range status.length).filter
    (fun f => stGet status f == FrameStatus.NOISE)).map (fun f => f + 1)

/-! ## DBSCAN sieve restoration (Cluster_DBSCAN::AddSievedFrames)

The frame-to-centroid distance (`Cdist_->FrameCentroidDist` against
cluster number `c`'s centroid) and the frame-to-frame distance
(`Cdist_->FrameDist`) are external collaborator functions, supplied as
parameters `centDist` and `fdist`. -/

structure SieveParams where
  nframes : Nat
  epsilon : ℚ
  ignoring : Nat → Bool
  sieveToCentroid : Bool
  centDist : Nat → Nat → ℚ
  fdist : Nat → Nat → ℚ

/-- The closest-centroid search of `AddSievedFrames` (`mindist` starts
at `DBL_MAX`, `minNode` at `end()`): returns the index of the first
cluster realizing the minimal frame-to-centroid distance together with
that distance, or `none` when there are no clusters (`DBL_MAX` is
modelled as "no value", every real distance comparing below it). -/
def argminCentroid (cd : Nat → ℚ) (ncl : Nat) : Option (Nat × ℚ) :=
  (List.range ncl).foldl
    (fun acc c =>
      match acc with
      | none => some (c, cd c)
      | some (b, bd) => if cd c < bd then some (c, cd c) else some (b, bd))
    none

/-- The per-frame classification of `AddSievedFrames` for a sieved
frame: the index of the cluster the frame will be committed to, or
`none` when the frame is discarded.  Under the centroid policy
(`sieveToCentroid_`), any closest cluster is accepted; otherwise the
frame is accepted only if the minimal centroid distance is strictly
below epsilon, or some member frame of that closest cluster is strictly
within epsilon. -/
def assignSieved (SP : SieveParams) (clusters : List (List Nat))
    (frame : Nat) : Option Nat :=
  if SP.ignoring frame = true then
    match argminCentroid (SP.centDist frame) clusters.length with
    | none => none
    | some (c, d) =>
      if SP.sieveToCentroid = true then some c
      else if d < SP.epsilon then some c
      else if (clusters.getD c []).any
          (fun m => decide (SP.fdist frame m < SP.epsilon)) then some c
      else none
  else none

/-- State touched by `AddSievedFrames`: the per-frame status array and
the cluster frame lists. -/
structure SieveState where
  status : List FrameStatus
  clusters : List (List Nat)
deriving Repr

/-- The commit loop of `AddSievedFrames`: append every accepted sieved
frame to its cluster (`AddFrameToCluster`), in frame order. -/
def commitSieved (asg : Nat → Option Nat) (nframes : Nat)
    (cls : List (List Nat)) : List (List Nat) :=
  (List.range nframes).foldl
    (fun cl f =>
      match asg f with
      | some c => cl.set c (cl.getD c [] ++ [f])
      | none => cl)
    cls

/-- `Cluster_DBSCAN::AddSievedFrames`: classify every sieved frame
against the frozen cluster list (through the temporary `frameToCluster`
mapping), then commit the accepted frames.  The function never writes
the `Status_` array. -/
def addSievedFrames (SP : SieveParams) (st : SieveState) : SieveState :=
  { status := st.status
    clusters := commitSieved (assignSieved SP st.clusters) SP.nframes
      st.clusters }

/-! ## DBSCAN configuration (Cluster_DBSCAN::SetupCluster)

`ArgList::getKeyInt / getKeyDouble` return the supplied defaults (-1 and
-1.0) when the keyword is absent; that behavior is modelled with
`Option` arguments. -/

structure DBConfig where
  minPoints : Int
  epsilon : ℚ
  sieveToCentroid : Bool
deriving DecidableEq, Repr

/-- `Cluster_DBSCAN::SetupCluster`: read `minpoints` (default -1) and
reject values `< 1`; read `epsilon` (default -1.0) and reject values
`≤ 0`; `sievetoframe` switches the restoration policy.  `none` models
the error return (1). -/
def setupCluster (minpointsArg : Option Int) (epsilonArg : Option ℚ)
    (hasSievetoframe : Bool) : Option DBConfig :=
  let mp := minpointsArg.getD (-1)
  if mp < 1 then none
  else
    let eps := epsilonArg.getD (-1)
    if eps ≤ 0 then none
    else some { minPoints := mp, epsilon := eps
                sieveToCentroid := !hasSievetoframe }

/-- A point of the candidate set is a core point when its region query
returns at least `minpoints` neighbors. -/
def isCore (P : DBParams) (n : Nat) : Prop :=
  P.minPoints ≤ ((regionQuery P n).length : Int)

instance (P : DBParams) (n : Nat) : Decidable (isCore P n) := by
  unfold isCore
  infer_instance

/-- A frame is density-reachable in one hop: it lies strictly within
epsilon of some core point of the candidate set.  `status_C_iff_reachable`
proves this characterizes exactly the frames whose final status is
`INCLUSTER`. -/
def reachable (P : DBParams) (f : Nat) : Prop :=
  ∃ n, n ∈ framesToCluster P ∧ f ∈ regionQuery P n ∧ isCore P n

/-- Rank of a frame status in the transition order
`UNASSIGNED → NOISE → INCLUSTER`. -/
def statusRank : FrameStatus → Nat
  | .UNASSIGNED => 0
  | .NOISE => 1
  | .INCLUSTER => 2

/-- The spec's fixed single-letter output mapping, stated by name:
`0` = None, `b` = Para, `B` = Anti, `G` = 3-10, `H` = Alpha, `I` = Pi,
`T` = Turn (spec section 6). -/
def specCodeOf : SStype → Char
  | .SECSTRUCT_NULL => '0'
  | .SECSTRUCT_PARA => 'b'
  | .SECSTRUCT_ANTI => 'B'
  | .SECSTRUCT_3_10 => 'G'
  | .SECSTRUCT_ALPHA => 'H'
  | .SECSTRUCT_PI => 'I'
  | .SECSTRUCT_TURN => 'T'

/-- Preservation of already-assigned structure labels between two
residue-table states: any residue whose label is not `SECSTRUCT_NULL`
keeps exactly that label. -/
def labelPres (SS SS' : List Residue) : Prop :=
  ∀ r : Nat, (SS.getD r nullRes).sstype ≠ SStype.SECSTRUCT_NULL →
    (SS'.getD r nullRes).sstype = (SS.getD r nullRes).sstype

/-! ### Concrete example inputs used by witnesses and counterexamples -/

/-- A selected residue with no backbone atoms. -/
def selRes : Residue := { nullRes with isSelected := true }

/-- Example residue 0 for the hydrogen-bond witness: selected, C and O
present (atom indices 0 and 1). -/
def exRes0 : Residue := { nullRes with isSelected := true, C := 0, O := 1 }

/-- Example residue 3 for the hydrogen-bond witness: selected, N and H
present (atom indices 2 and 3). -/
def exRes3 : Residue := { nullRes with isSelected := true, N := 2, H := 3 }

/-- Example residue table: four selected residues, only residue 0 with
C/O, only residue 3 with N/H (spec end-to-end scenario 1). -/
def exSS : List Residue := [exRes0, selRes, selRes, exRes3]

/-- Example distance function: every atom pair at distance 1 except pair
(1,3) = (O of residue 0, H of residue 3) at distance 1/5, so the
Kabsch-Sander energy of `(0,3)` is `1 + 1 - 5 - 1 = -4 < -1/2` at unit
scaling factor. -/
def exDist : Int → Int → ℚ := fun a b => if a = 1 ∧ b = 3 then 1/5 else 1

/-- Four selected residues with residue 0's CO bonded to residue 3's NH
(adjacency row set by hand), used by the Turn-pass witness. -/
def exTurnSS : List Residue :=
  [{ selRes with CO_HN_Hbond := [false, false, false, true] },
   selRes, selRes, selRes]

/-- Example distance matrix for the DBSCAN counterexample: frames 0-1
and 1-2 at distance 9, frames 0-2 at distance 15 (only ordered pairs
are consulted through `DBParams.getElement`). -/
def exDmat : Nat → Nat → ℚ := fun i j =>
  if i = 0 ∧ j = 1 then 9
  else if i = 1 ∧ j = 2 then 9
  else if i = 0 ∧ j = 2 then 15
  else 100

/-- DBSCAN counterexample parameters: 3 frames, `minpoints 2`,
`epsilon 10`, nothing sieved.  Frame 0 has a single neighbor (frame 1),
so the first outer iteration marks it `NOISE`; frame 1 is a core point
whose expansion then upgrades frame 0 to `INCLUSTER`. -/
def exP : DBParams := ⟨3, 2, 10, exDmat, fun _ => false⟩

/-! ## Generic list access lemmas -/

theorem getD_map_range {α : Type} {n i : Nat} (f : Nat → α) (d : α)
    (h : i < n) : ((List.range n).map f).getD i d = f i := by
  rw [List.getD_eq_getElem?_getD, List.getElem?_map]
  simp [List.getElem?_range h]

theorem getD_oob {α : Type} (l : List α) {i : Nat} (d : α)
    (h : l.length ≤ i) : l.getD i d = d := by
  rw [List.getD_eq_getElem?_getD, List.getElem?_eq_none h]
  rfl

theorem getD_set_ne {α : Type} (l : List α) {n i : Nat} (x d : α)
    (h : n ≠ i) : (l.set n x).getD i d = l.getD i d := by
  simp [List.getD_eq_getElem?_getD, List.getElem?_set_ne h]

theorem getD_set_self {α : Type} (l : List α) {n : Nat} (x d : α)
    (h : n < l.length) : (l.set n x).getD n d = x := by
  simp [List.getD_eq_getElem?_getD, List.getElem?_set_self, h]

theorem getD_replicate {α : Type} {n i : Nat} (x d : α) (h : i < n) :
    (List.replicate n x).getD i d = x := by
  rw [List.getD_eq_getElem?_getD, List.getElem?_replicate]
  simp [h]

/-! ## C2: division by a zero frame counter in DSSP::print -/

/-- **C2** (the code at the failing input): with zero processed frames,
every per-residue average computed by `DSSP::print` is the IEEE result
of dividing by the zero frame counter — NaN, i.e. not a rational value
(`none`) — for every residue, so the code neither fails fast nor
reports zeros: it silently emits non-finite values. -/
theorem dssp_print_zero_frames_not_finite (R : Residue) :
    printResidueAverages R 0 = List.replicate 6 none := by
  simp [printResidueAverages, printAvg]

/-! ## C7: DBSCAN configuration validation -/

/-- **C7**: `Cluster_DBSCAN::SetupCluster` returns an error exactly when
`minpoints` is missing or less than 1, or `epsilon` is missing or not
positive; in every other case it succeeds and records the supplied
values (with the restoration policy switched by `sievetoframe`). -/
theorem dbscan_setup_validation (mp : Option Int) (eps : Option ℚ)
    (stf : Bool) :
    (setupCluster mp eps stf = none ↔
      ((mp = none ∨ ∃ v, mp = some v ∧ v < 1) ∨
       (eps = none ∨ ∃ e, eps = some e ∧ e ≤ 0))) ∧
    (∀ cfg, setupCluster mp eps stf = some cfg →
      cfg.minPoints = mp.getD (-1) ∧ 1 ≤ cfg.minPoints ∧
      cfg.epsilon = eps.getD (-1) ∧ 0 < cfg.epsilon ∧
      cfg.sieveToCentroid = !stf) := by
  unfold setupCluster
  constructor
  · cases mp with
    | none => simp
    | some v =>
      cases eps with
      | none =>
        by_cases hv : v < 1 <;> simp [hv]
      | some e =>
        by_cases hv : v < 1 <;> by_cases he : e ≤ 0 <;>
          simp [hv, he]
  · intro cfg hcfg
    by_cases hv : mp.getD (-1) < 1
    · simp [hv] at hcfg
    · by_cases he : eps.getD (-1) ≤ 0
      · simp [hv, he] at hcfg
      · simp [hv, he] at hcfg
        subst hcfg
        refine ⟨rfl, ?_, rfl, ?_, rfl⟩
        · show 1 ≤ mp.getD (-1)
          omega
        · show 0 < eps.getD (-1)
          exact lt_of_not_le he

/-- Witness for C7 at a concrete accepted configuration
(`minpoints 3`, `epsilon 2`). -/
theorem dbscan_setup_validation_witness :
    (DBConfig.mk 3 2 true).minPoints = (Option.getD (some 3) (-1)) ∧
    1 ≤ (DBConfig.mk 3 2 true).minPoints ∧
    (DBConfig.mk 3 2 true).epsilon = (Option.getD (some 2) (-1)) ∧
    0 < (DBConfig.mk 3 2 true).epsilon ∧
    (DBConfig.mk 3 2 true).sieveToCentroid = !false :=
  (dbscan_setup_validation (some 3) (some 2) false).2
    (DBConfig.mk 3 2 true) (by decide)

/-! ## C9: the emitted single-character codes -/

/-- **C9**: the character emitted for every selected residue is exactly
the fixed mapping `0`/`b`/`B`/`G`/`H`/`I`/`T` of its structure label
(the spec's name mapping `specCodeOf`), and no other character ever
appears in an output line. -/
theorem dssp_output_codes :
    (∀ t, SSchar t = specCodeOf t) ∧
    (∀ (Nres : Nat) (SS : List Residue) (c : Char), c ∈ ssLine Nres SS →
      c = '0' ∨ c = 'b' ∨ c = 'B' ∨ c = 'G' ∨ c = 'H' ∨ c = 'I' ∨
      c = 'T') := by
  constructor
  · intro t
    cases t <;> rfl
  · intro Nres SS c hc
    unfold ssLine at hc
    rw [List.mem_map] at hc
    obtain ⟨r, -, rfl⟩ := hc
    cases (SS.getD r nullRes).sstype <;> simp [SSchar]

/-- Witness for C9: the line emitted for a single selected residue with
no assignment is the character `0`, which is in the allowed set. -/
theorem dssp_output_codes_witness :
    '0' ∈ ssLine 1 [selRes] ∧
    ('0' = '0' ∨ '0' = 'b' ∨ '0' = 'B' ∨ '0' = 'G' ∨ '0' = 'H' ∨
     '0' = 'I' ∨ '0' = 'T') :=
  ⟨by decide, dssp_output_codes.2 1 [selRes] '0' (by decide)⟩

/-! ## C3: the hydrogen-bond relation -/

/-- **C3**: after the hydrogen-bond phase, for a selected residue `i`
and any residue `j` (both in range), the bond `HBond(i,j)` holds exactly
when `j` is selected and distinct from `i`, residue `i` has both C and O
atoms, residue `j` has both N and H atoms, and the Kabsch-Sander energy
is strictly below `-0.5`; in particular a pair with any required
backbone atom absent is not bonded, and the phase is total (no abort) on
every input. -/
theorem dssp_hbond_iff (fac : ℚ) (dist : Int → Int → ℚ) (Nres : Nat)
    (SS : List Residue) (i j : Nat) (hi : i < Nres) (hj : j < Nres)
    (hlen : Nres ≤ SS.length)
    (hsel : (SS.getD i nullRes).isSelected = true) :
    ((hbondPhase fac dist Nres SS).getD i nullRes).CO_HN_Hbond.getD j
        false = true ↔
      ((SS.getD j nullRes).isSelected = true ∧ i ≠ j ∧
       (SS.getD i nullRes).C ≠ -1 ∧ (SS.getD i nullRes).O ≠ -1 ∧
       (SS.getD j nullRes).N ≠ -1 ∧ (SS.getD j nullRes).H ≠ -1 ∧
       kabschSanderE fac dist (SS.getD i nullRes).C (SS.getD i nullRes).O
         (SS.getD j nullRes).N (SS.getD j nullRes).H < -1/2) := by
  have hilen : i < SS.length := lt_of_lt_of_le hi hlen
  unfold hbondPhase
  rw [getD_map_range _ _ hilen]
  simp only [hi, hsel, and_self, if_true, true_and]
  by_cases hco : (SS.getD i nullRes).C = -1 ∨ (SS.getD i nullRes).O = -1
  · rw [if_pos hco]
    simp only []
    rw [getD_replicate _ _ hj]
    constructor
    · intro h
      exact absurd h (by simp)
    · rintro ⟨-, -, hC, hO, -⟩
      rcases hco with h | h
      · exact absurd h hC
      · exact absurd h hO
  · rw [if_neg hco]
    simp only []
    unfold computeRow
    rw [getD_map_range _ _ hj]
    push_neg at hco
    by_cases hcond : (SS.getD j nullRes).isSelected = true ∧ i ≠ j ∧
        (SS.getD j nullRes).H ≠ -1 ∧ (SS.getD j nullRes).N ≠ -1
    · rw [if_pos hcond]
      simp only [decide_eq_true_eq]
      constructor
      · intro hE
        exact ⟨hcond.1, hcond.2.1, hco.1, hco.2, hcond.2.2.2, hcond.2.2.1, hE⟩
      · rintro ⟨-, -, -, -, -, -, hE⟩
        exact hE
    · rw [if_neg hcond]
      constructor
      · intro h
        exact absurd h (by simp)
      · rintro ⟨h1, h2, -, -, h3, h4, -⟩
        exact absurd ⟨h1, h2, h4, h3⟩ hcond

/-- Witness for C3: in the scenario-1 residue table, the pair `(0, 3)`
(residue 0 has C/O, residue 3 has N/H, energy `-4`) is bonded. -/
theorem dssp_hbond_iff_witness :
    ((hbondPhase 1 exDist 4 exSS).getD 0 nullRes).CO_HN_Hbond.getD 3
      false = true :=
  (dssp_hbond_iff 1 exDist 4 exSS 0 3 (by decide) (by decide) (by decide)
      (by decide)).mpr
    ⟨by decide, by decide, by decide, by decide, by decide, by decide, by
      norm_num [kabschSanderE, exDist, exSS, exRes0, exRes3, nullRes]⟩

/-! ## C4 and C6: label assignment discipline -/

/-- The structure label written by `SSassign` at each index: `typeIn`
exactly on the still-unassigned selected residues of the requested range
(clipped at `Nres`), the previous label everywhere else. -/
theorem SSassign_getD (Nres : Nat) (t : SStype) (a b : Nat)
    (SS : List Residue) (r : Nat) :
    (SSassign Nres t a b SS).getD r nullRes =
      (if a ≤ r ∧ r < b ∧ r < Nres ∧
          (SS.getD r nullRes).isSelected = true ∧
          (SS.getD r nullRes).sstype = SStype.SECSTRUCT_NULL
       then { SS.getD r nullRes with sstype := t }
       else SS.getD r nullRes) := by
  unfold SSassign
  rcases Nat.lt_or_ge r SS.length with hr | hr
  · rw [getD_map_range _ _ hr]
  · rw [getD_oob _ _ (by simpa using hr), getD_oob _ _ hr]
    have : (nullRes.isSelected = true) = False := by simp [nullRes]
    simp [this]

theorem labelPres_refl (SS : List Residue) : labelPres SS SS :=
  fun _ _ => rfl

theorem labelPres_trans {S1 S2 S3 : List Residue} (h1 : labelPres S1 S2)
    (h2 : labelPres S2 S3) : labelPres S1 S3 := by
  intro r hr
  rw [h2 r, h1 r hr]
  rw [h1 r hr]
  exact hr

/-- `SSassign` never changes an already-assigned label. -/
theorem SSassign_labelPres (Nres : Nat) (t : SStype) (a b : Nat)
    (SS : List Residue) : labelPres SS (SSassign Nres t a b SS) := by
  intro r hr
  rw [SSassign_getD]
  split
  · next hcond => exact absurd hcond.2.2.2.2 hr
  · rfl

/-- `setSstype` at a residue whose label is still `SECSTRUCT_NULL` never
changes an already-assigned label. -/
theorem setSstype_labelPres (SS : List Residue) (n : Nat) (t : SStype)
    (hn : (SS.getD n nullRes).sstype = SStype.SECSTRUCT_NULL) :
    labelPres SS (setSstype SS n t) := by
  intro r hr
  unfold setSstype
  rcases eq_or_ne n r with rfl | hne
  · exact absurd hn hr
  · rw [getD_set_ne _ _ _ hne]

/-- A beta-sheet result implies the residue was still unassigned. -/
theorem betaFound_some_null (Nres : Nat) (SS : List Residue) (resi : Nat)
    (t : SStype) (hf : betaFound Nres SS resi = some t) :
    (SS.getD resi nullRes).sstype = SStype.SECSTRUCT_NULL := by
  unfold betaFound at hf
  by_cases hnull : (SS.getD resi nullRes).sstype = SStype.SECSTRUCT_NULL
  · exact hnull
  · rw [if_neg hnull] at hf
    exact absurd hf (by simp)

/-- Each iteration of the initial assignment loop preserves
already-assigned labels. -/
theorem classifyStep_labelPres (Nres : Nat) (SS : List Residue)
    (resi : Nat) : labelPres SS (classifyStep Nres SS resi) := by
  unfold classifyStep
  by_cases h0 : (SS.getD resi nullRes).isSelected = false
  · rw [if_pos h0]
    exact labelPres_refl SS
  · rw [if_neg h0]
    by_cases hA : isBonded Nres SS ((resi : Int) - 1) ((resi : Int) + 3) =
        true ∧ isBonded Nres SS resi ((resi : Int) + 4) = true
    · rw [if_pos hA]
      exact SSassign_labelPres Nres _ _ _ SS
    · rw [if_neg hA]
      rcases hf : betaFound Nres SS resi with - | t
      · dsimp only []
        by_cases h3 : isBonded Nres SS ((resi : Int) - 1) ((resi : Int) + 2)
            = true ∧ isBonded Nres SS resi ((resi : Int) + 3) = true
        · rw [if_pos h3]
          exact SSassign_labelPres Nres _ _ _ SS
        · rw [if_neg h3]
          by_cases h5 : isBonded Nres SS ((resi : Int) - 1) ((resi : Int) + 4)
              = true ∧ isBonded Nres SS resi ((resi : Int) + 5) = true
          · rw [if_pos h5]
            exact SSassign_labelPres Nres _ _ _ SS
          · rw [if_neg h5]
            exact labelPres_refl SS
      · dsimp only []
        exact setSstype_labelPres SS resi t
          (betaFound_some_null Nres SS resi t hf)

/-- Each iteration of the Turn loop preserves already-assigned labels. -/
theorem turnStep_labelPres (Nres : Nat) (SS : List Residue) (resi : Nat) :
    labelPres SS (turnStep Nres SS resi) := by
  unfold turnStep
  by_cases h0 : (SS.getD resi nullRes).isSelected = false
  · rw [if_pos h0]
    exact labelPres_refl SS
  · rw [if_neg h0]
    by_cases h5 : isBonded Nres SS resi ((resi : Int) + 5) = true
    · rw [if_pos h5]
      exact SSassign_labelPres Nres _ _ _ SS
    · rw [if_neg h5]
      by_cases h4 : isBonded Nres SS resi ((resi : Int) + 4) = true
      · rw [if_pos h4]
        exact SSassign_labelPres Nres _ _ _ SS
      · rw [if_neg h4]
        by_cases h3 : isBonded Nres SS resi ((resi : Int) + 3) = true
        · rw [if_pos h3]
          exact SSassign_labelPres Nres _ _ _ SS
        · rw [if_neg h3]
          exact labelPres_refl SS

theorem ssStep_labelPres (Nres : Nat) (SS : List Residue) (k : Nat) :
    labelPres SS (ssStep Nres SS k) := by
  unfold ssStep
  by_cases hk : k < Nres
  · rw [if_pos hk]
    exact classifyStep_labelPres Nres SS k
  · rw [if_neg hk]
    exact turnStep_labelPres Nres SS (k - Nres)

theorem runSteps_succ (Nres : Nat) (SS : List Residue) (k : Nat) :
    runSteps Nres SS (k + 1) = ssStep Nres (runSteps Nres SS k) k := by
  unfold runSteps
  rw [List.range_succ, List.foldl_append]
  rfl

/-- The whole classification (both passes) equals the step sequence. -/
theorem runSteps_eq_phases (Nres : Nat) (SS : List Residue) :
    runSteps Nres SS (Nres + Nres) = turnPhase Nres (classifyPhase Nres SS) := by
  unfold runSteps turnPhase classifyPhase
  rw [List.range_add, List.foldl_append, List.foldl_map]
  have h1 : (List.range Nres).foldl (ssStep Nres) SS =
      (List.range Nres).foldl (classifyStep Nres) SS := by
    apply List.foldl_ext
    intro a x hx
    have : x < Nres := List.mem_range.mp hx
    simp [ssStep, this]
  rw [h1]
  apply List.foldl_ext
  intro a x hx
  simp [ssStep]

/-- **C4**: within one frame, labels are written first-writer-wins:
`SSassign` never changes a non-`None` label; across any two cuts of the
classification step sequence (initial pass then Turn pass) every residue
whose label is already non-`None` keeps exactly that label; the step
sequence is the real classification; and the only reset to `None`
happens at the start of the next frame's hydrogen-bond phase, which
clears every selected residue's label. -/
theorem dssp_label_first_writer_wins (Nres : Nat) (SS : List Residue) :
    (∀ t a b, labelPres SS (SSassign Nres t a b SS)) ∧
    (∀ i j, i ≤ j → labelPres (runSteps Nres SS i) (runSteps Nres SS j)) ∧
    runSteps Nres SS (Nres + Nres) = turnPhase Nres (classifyPhase Nres SS) ∧
    (∀ (fac : ℚ) (dist : Int → Int → ℚ) (r : Nat), r < SS.length →
      (SS.getD r nullRes).isSelected = true →
      ((hbondPhase fac dist Nres SS).getD r nullRes).sstype =
        (if r < Nres then SStype.SECSTRUCT_NULL
         else (SS.getD r nullRes).sstype)) := by
  refine ⟨fun t a b => SSassign_labelPres Nres t a b SS, ?_, ?_, ?_⟩
  · intro i j hij
    induction j with
    | zero =>
      have : i = 0 := Nat.le_zero.mp hij
      subst this
      exact labelPres_refl _
    | succ m ih =>
      rcases Nat.lt_or_ge i (m + 1) with hlt | hge
      · have him : i ≤ m := Nat.lt_succ_iff.mp hlt
        refine labelPres_trans (ih him) ?_
        rw [runSteps_succ]
        exact ssStep_labelPres Nres (runSteps Nres SS m) m
      · have : i = m + 1 := le_antisymm hij hge
        subst this
        exact labelPres_refl _
  · exact runSteps_eq_phases Nres SS
  · intro fac dist r hr hsel
    unfold hbondPhase
    rw [getD_map_range _ _ hr]
    by_cases hrN : r < Nres
    · simp only [hrN, hsel, and_self, if_true, true_and]
      split <;> rfl
    · simp [hrN]

/-- Witness for C4 on the scenario-1 inputs: the labels after the first
two steps are preserved by the remaining steps, and the reset clears
residue 0. -/
theorem dssp_label_first_writer_wins_witness :
    labelPres (runSteps 4 exSS 2) (runSteps 4 exSS 8) ∧
    ((hbondPhase 1 exDist 4 exSS).getD 0 nullRes).sstype =
      (if 0 < 4 then SStype.SECSTRUCT_NULL else (exSS.getD 0 nullRes).sstype) :=
  ⟨(dssp_label_first_writer_wins 4 exSS).2.1 2 8 (by decide),
   (dssp_label_first_writer_wins 4 exSS).2.2.2 1 exDist 0 (by decide)
     (by decide)⟩

/-- **C6**: the Turn pass for residue `i` scans span lengths in the
order 5, 4, 3 and stops at the first bonded span; the longest qualifying
span wins and smaller spans are never consulted, and the labelling it
performs writes `Turn` exactly on the still-unassigned selected residues
`i+1 .. i+span-1`. -/
theorem dssp_turn_longest_span (Nres : Nat) (SS : List Residue) (i : Nat)
    (hsel : (SS.getD i nullRes).isSelected = true) :
    (isBonded Nres SS i ((i : Int) + 5) = true →
      turnStep Nres SS i = SSassign Nres .SECSTRUCT_TURN (i+1) (i+5) SS) ∧
    (isBonded Nres SS i ((i : Int) + 5) = false →
      isBonded Nres SS i ((i : Int) + 4) = true →
      turnStep Nres SS i = SSassign Nres .SECSTRUCT_TURN (i+1) (i+4) SS) ∧
    (isBonded Nres SS i ((i : Int) + 5) = false →
      isBonded Nres SS i ((i : Int) + 4) = false →
      isBonded Nres SS i ((i : Int) + 3) = true →
      turnStep Nres SS i = SSassign Nres .SECSTRUCT_TURN (i+1) (i+3) SS) ∧
    (isBonded Nres SS i ((i : Int) + 5) = false →
      isBonded Nres SS i ((i : Int) + 4) = false →
      isBonded Nres SS i ((i : Int) + 3) = false →
      turnStep Nres SS i = SS) ∧
    (∀ (t : SStype) (a b r : Nat),
      ((SSassign Nres t a b SS).getD r nullRes).sstype =
        (if a ≤ r ∧ r < b ∧ r < Nres ∧
            (SS.getD r nullRes).isSelected = true ∧
            (SS.getD r nullRes).sstype = SStype.SECSTRUCT_NULL
         then t else (SS.getD r nullRes).sstype)) := by
  have hns : ¬((SS.getD i nullRes).isSelected = false) := by
    rw [hsel]
    simp
  refine ⟨?_, ?_, ?_, ?_, ?_⟩
  · intro h5
    unfold turnStep
    rw [if_neg hns, if_pos h5]
  · intro h5 h4
    unfold turnStep
    rw [if_neg hns, if_neg (by simp [h5]), if_pos h4]
  · intro h5 h4 h3
    unfold turnStep
    rw [if_neg hns, if_neg (by simp [h5]), if_neg (by simp [h4]), if_pos h3]
  · intro h5 h4 h3
    unfold turnStep
    rw [if_neg hns, if_neg (by simp [h5]), if_neg (by simp [h4]),
      if_neg (by simp [h3])]
  · intro t a b r
    rw [SSassign_getD]
    split <;> rfl

/-- Witness for C6: in a four-residue table where residue 0's CO bonds
residue 3's NH (span 3; spans 5 and 4 unbonded), the Turn pass labels
residues 1 and 2. -/
theorem dssp_turn_longest_span_witness :
    turnStep 4 exTurnSS 0 = SSassign 4 .SECSTRUCT_TURN 1 3 exTurnSS :=
  (dssp_turn_longest_span 4 exTurnSS 0 (by decide)).2.2.1
    (by decide) (by decide) (by decide)

/-! ## C5 and C10: sieve restoration -/

/-- The closest-centroid fold of `AddSievedFrames` returns the first
cluster realizing the minimal frame-to-centroid distance. -/
theorem argminCentroid_spec (cd : Nat → ℚ) (ncl : Nat) :
    (∀ c d, argminCentroid cd ncl = some (c, d) →
      c < ncl ∧ d = cd c ∧ ∀ c', c' < ncl → d ≤ cd c') := by
  induction ncl with
  | zero =>
    intro c d h
    simp [argminCentroid] at h
  | succ m ih =>
    have hstep : argminCentroid cd (m + 1) =
        (match argminCentroid cd m with
         | none => some (m, cd m)
         | some (b, bd) =>
           if cd m < bd then some (m, cd m) else some (b, bd)) := by
      unfold argminCentroid
      rw [List.range_succ, List.foldl_append]
      rfl
    intro c d h
    rw [hstep] at h
    rcases ham : argminCentroid cd m with - | bd0
    · rw [ham] at h
      dsimp only [] at h
      obtain ⟨rfl, rfl⟩ : m = c ∧ cd m = d := by
        constructor <;> [skip; skip] <;> cases h <;> rfl
      have hm0 : m = 0 := by
        by_contra hm
        have : 0 < m := Nat.pos_of_ne_zero hm
        have h1 : argminCentroid cd m =
            ((List.range m).drop 1).foldl
              (fun acc c =>
                match acc with
                | none => some (c, cd c)
                | some (b, bd) =>
                  if cd c < bd then some (c, cd c) else some (b, bd))
              (some (0, cd 0)) := by
          unfold argminCentroid
          rw [show List.range m = 0 :: (List.range m).drop 1 from ?_]
          · rfl
          · rw [List.range_eq_range']
            cases m with
            | zero => omega
            | succ k =>
              rw [List.range'_succ]
              rfl
        have h2 : ∀ (l : List Nat) (b : Nat) (bd : ℚ),
            (l.foldl (fun acc c =>
                match acc with
                | none => some (c, cd c)
                | some (b, bd) =>
                  if cd c < bd then some (c, cd c) else some (b, bd))
              (some (b, bd))) ≠ none := by
          intro l
          induction l with
          | nil => intro b bd; simp
          | cons x xs ihl =>
            intro b bd
            dsimp only [List.foldl]
            by_cases hx : cd x < bd
            · rw [if_pos hx]
              exact ihl x (cd x)
            · rw [if_neg hx]
              exact ihl b bd
        rw [h1] at ham
        exact h2 _ 0 (cd 0) ham
      subst hm0
      refine ⟨Nat.lt_succ_self 0, rfl, ?_⟩
      intro c' hc'
      interval_cases c'
      exact le_refl _
    · obtain ⟨b, bd⟩ := bd0
      rw [ham] at h
      dsimp only [] at h
      have hb := ih b bd ham
      by_cases hlt : cd m < bd
      · rw [if_pos hlt] at h
        obtain ⟨rfl, rfl⟩ : m = c ∧ cd m = d := by
          constructor <;> cases h <;> rfl
        refine ⟨Nat.lt_succ_self m, rfl, ?_⟩
        intro c' hc'
        rcases Nat.lt_or_ge c' m with hcm | hcm
        · exact le_of_lt (lt_of_lt_of_le hlt (hb.2.1 ▸ hb.2.2 c' hcm))
        · have : c' = m := by omega
          subst this
          exact le_refl _
      · rw [if_neg hlt] at h
        obtain ⟨rfl, rfl⟩ : b = c ∧ bd = d := by
          constructor <;> cases h <;> rfl
        refine ⟨Nat.lt_succ_of_lt hb.1, hb.2.1, ?_⟩
        intro c' hc'
        rcases Nat.lt_or_ge c' m with hcm | hcm
        · exact hb.2.2 c' hcm
        · have : c' = m := by omega
          subst this
          exact le_of_not_lt hlt


/-- **C5**: under the frame-distance policy, a sieved frame assigned to
cluster `c` went to a cluster of minimal frame-to-centroid distance,
and either that distance is strictly below epsilon or some member of `c`
is strictly within epsilon of the frame; in particular at centroid
distance exactly epsilon the assignment can only come from the member
fallback. -/
theorem dbscan_sieve_frame_distance (SP : SieveParams)
    (clusters : List (List Nat)) (f c : Nat)
    (hpol : SP.sieveToCentroid = false)
    (hassign : assignSieved SP clusters f = some c) :
    c < clusters.length ∧
    (∀ c', c' < clusters.length → SP.centDist f c ≤ SP.centDist f c') ∧
    (SP.centDist f c < SP.epsilon ∨
      ∃ m ∈ clusters.getD c [], SP.fdist f m < SP.epsilon) ∧
    (SP.centDist f c = SP.epsilon →
      ∃ m ∈ clusters.getD c [], SP.fdist f m < SP.epsilon) := by
  unfold assignSieved at hassign
  by_cases hig : SP.ignoring f = true
  · rw [if_pos hig] at hassign
    rcases ham : argminCentroid (SP.centDist f) clusters.length with - | cd0
    · rw [ham] at hassign
      exact absurd hassign (by simp)
    · obtain ⟨c0, d0⟩ := cd0
      rw [ham, hpol] at hassign
      dsimp only [] at hassign
      rw [if_neg (by simp)] at hassign
      have hspec := argminCentroid_spec (SP.centDist f) clusters.length
        c0 d0 ham
      by_cases hlt : d0 < SP.epsilon
      · rw [if_pos hlt] at hassign
        obtain rfl : c0 = c := by cases hassign; rfl
        refine ⟨hspec.1, ?_, Or.inl (hspec.2.1 ▸ hlt), ?_⟩
        · intro c' hc'
          exact hspec.2.1 ▸ hspec.2.2 c' hc'
        · intro heq
          rw [hspec.2.1, heq] at hlt
          exact absurd hlt (lt_irrefl _)
      · rw [if_neg hlt] at hassign
        by_cases hany : (clusters.getD c0 []).any
            (fun m => decide (SP.fdist f m < SP.epsilon)) = true
        · rw [if_pos hany] at hassign
          obtain rfl : c0 = c := by cases hassign; rfl
          rw [List.any_eq_true] at hany
          obtain ⟨m, hm, hmd⟩ := hany
          rw [decide_eq_true_eq] at hmd
          exact ⟨hspec.1,
            fun c' hc' => hspec.2.1 ▸ hspec.2.2 c' hc',
            Or.inr ⟨m, hm, hmd⟩, fun _ => ⟨m, hm, hmd⟩⟩
        · rw [if_neg hany] at hassign
          exact absurd hassign (by simp)
  · rw [if_neg hig] at hassign
    exact absurd hassign (by simp)

/-- Concrete sieve parameters for the C5 witness: one sieved frame 3,
`epsilon 10`, frame-distance policy; the nearest centroid is at distance
exactly 10 (not accepted by the strict centroid test), and member frame
2 is at distance 5 (accepted by the fallback). -/
def exSP : SieveParams :=
  ⟨4, 10, fun f => f == 3, false,
   fun _ c => if c = 0 then 10 else 50,
   fun _ m => if m = 2 then 5 else 50⟩

/-- Witness for C5 at the boundary case `centDist = epsilon`: frame 3
is assigned to cluster 0 through the member fallback. -/
theorem dbscan_sieve_frame_distance_witness :
    0 < ([[0, 1, 2]] : List (List Nat)).length ∧
    (∀ c', c' < ([[0, 1, 2]] : List (List Nat)).length →
      exSP.centDist 3 0 ≤ exSP.centDist 3 c') ∧
    (exSP.centDist 3 0 < exSP.epsilon ∨
      ∃ m ∈ ([[0, 1, 2]] : List (List Nat)).getD 0 [],
        exSP.fdist 3 m < exSP.epsilon) ∧
    (exSP.centDist 3 0 = exSP.epsilon →
      ∃ m ∈ ([[0, 1, 2]] : List (List Nat)).getD 0 [],
        exSP.fdist 3 m < exSP.epsilon) :=
  dbscan_sieve_frame_distance exSP [[0, 1, 2]] 3 0 (by decide) (by decide)

/-- **C10**: `AddSievedFrames` never writes the status array, and a
frame whose status was `UNASSIGNED` before restoration (in particular a
sieved frame discarded under the frame-distance policy) does not appear
in the `#NOISE_FRAMES` listing afterwards. -/
theorem dbscan_sieve_status_untouched (SP : SieveParams) (st : SieveState)
    (f : Nat) :
    (addSievedFrames SP st).status = st.status ∧
    (stGet st.status f = FrameStatus.UNASSIGNED →
      (f + 1) ∉ noiseFrames (addSievedFrames SP st).status) := by
  refine ⟨rfl, ?_⟩
  intro hU hmem
  unfold noiseFrames at hmem
  rw [List.mem_map] at hmem
  obtain ⟨g, hgmem, hg1⟩ := hmem
  obtain rfl : g = f := by omega
  rw [List.mem_filter] at hgmem
  have h2 := hgmem.2
  have : (addSievedFrames SP st).status = st.status := rfl
  rw [this] at h2
  rw [hU] at h2
  exact absurd h2 (by simp)

/-- Witness for C10: with a single unassigned frame, restoration leaves
the status array alone and lists no noise frame. -/
theorem dbscan_sieve_status_untouched_witness :
    1 ∉ noiseFrames (addSievedFrames exSP
      ⟨[FrameStatus.UNASSIGNED], [[0, 1, 2]]⟩).status :=
  (dbscan_sieve_status_untouched exSP
    ⟨[FrameStatus.UNASSIGNED], [[0, 1, 2]]⟩ 0).2 (by decide)

/-! ## DBSCAN invariant development: utility lemmas -/

theorem framesToCluster_lt (P : DBParams) {f : Nat}
    (hf : f ∈ framesToCluster P) : f < P.nframes :=
  List.mem_range.mp (List.mem_filter.mp hf).1

theorem regionQuery_subset (P : DBParams) (n : Nat) :
    ∀ w ∈ regionQuery P n, w ∈ framesToCluster P :=
  fun _ hw => (List.mem_filter.mp hw).1

theorem getElement_symm (P : DBParams) (i j : Nat) :
    P.getElement i j = P.getElement j i := by
  unfold DBParams.getElement
  rw [min_comm, max_comm]

theorem mem_regionQuery (P : DBParams) {n w : Nat} :
    w ∈ regionQuery P n ↔
      w ∈ framesToCluster P ∧ w ≠ n ∧ P.getElement n w < P.epsilon := by
  unfold regionQuery
  rw [List.mem_filter]
  simp

theorem regionQuery_symm (P : DBParams) {n w : Nat}
    (hn : n ∈ framesToCluster P) (hw : w ∈ regionQuery P n) :
    n ∈ regionQuery P w := by
  rw [mem_regionQuery] at hw ⊢
  exact ⟨hn, fun h => hw.2.1 h.symm, by rw [getElement_symm]; exact hw.2.2⟩

theorem reachable_mem (P : DBParams) {w : Nat} (h : reachable P w) :
    w ∈ framesToCluster P := by
  obtain ⟨n, -, hw, -⟩ := h
  exact regionQuery_subset P n w hw

theorem statusRank_le_two (t : FrameStatus) : statusRank t ≤ 2 := by
  cases t <;> simp [statusRank]

theorem statusRank_two (t : FrameStatus) (h : 2 ≤ statusRank t) :
    t = FrameStatus.INCLUSTER := by
  cases t <;> simp [statusRank] at h ⊢

theorem visGet_set_keeps {v : List Bool} {n i : Nat}
    (h : visGet v i = true) : visGet (v.set n true) i = true := by
  rcases eq_or_ne n i with rfl | hne
  · rcases Nat.lt_or_ge n v.length with hlt | hge
    · exact getD_set_self v true true hlt
    · rw [List.set_eq_of_length_le hge]
      exact h
  · rw [visGet, getD_set_ne v true true hne]
    exact h

theorem visGet_false_lt {v : List Bool} {n : Nat} (h : visGet v n = false) :
    n < v.length := by
  by_contra hge
  rw [visGet, getD_oob v true (by omega)] at h
  exact absurd h (by simp)

/-- Full characterization of the `addToCluster` write. -/
theorem addToCluster_eq (n : Nat) (s : DBState) :
    (stGet s.status n = FrameStatus.INCLUSTER ∧ addToCluster n s = s) ∨
    (stGet s.status n ≠ FrameStatus.INCLUSTER ∧
      addToCluster n s =
        { s with cframes := s.cframes ++ [n]
                 status := s.status.set n .INCLUSTER }) := by
  unfold addToCluster
  by_cases h : stGet s.status n = FrameStatus.INCLUSTER
  · exact Or.inl ⟨h, by rw [if_neg (by simp [h])]⟩
  · exact Or.inr ⟨h, by rw [if_pos h]⟩

theorem stGet_set_C_keeps {st : List FrameStatus} {n i : Nat}
    (h : stGet st i = FrameStatus.INCLUSTER) :
    stGet (st.set n FrameStatus.INCLUSTER) i = FrameStatus.INCLUSTER := by
  rcases eq_or_ne n i with rfl | hne
  · rcases Nat.lt_or_ge n st.length with hlt | hge
    · exact getD_set_self st _ _ hlt
    · rw [List.set_eq_of_length_le hge]
      exact h
  · rw [stGet, getD_set_ne st _ _ hne]
    exact h

theorem addToCluster_C_keeps {n : Nat} {s : DBState} {i : Nat}
    (h : stGet s.status i = FrameStatus.INCLUSTER) :
    stGet (addToCluster n s).status i = FrameStatus.INCLUSTER := by
  rcases addToCluster_eq n s with ⟨-, heq⟩ | ⟨-, heq⟩ <;> rw [heq]
  · exact h
  · exact stGet_set_C_keeps h

theorem addToCluster_status_self {n : Nat} {s : DBState}
    (hn : n < s.status.length) :
    stGet (addToCluster n s).status n = FrameStatus.INCLUSTER := by
  rcases addToCluster_eq n s with ⟨hC, heq⟩ | ⟨-, heq⟩ <;> rw [heq]
  · exact hC
  · exact getD_set_self s.status _ _ hn

theorem addToCluster_status_ne {n : Nat} {s : DBState} {i : Nat}
    (h : i ≠ n) : stGet (addToCluster n s).status i = stGet s.status i := by
  rcases addToCluster_eq n s with ⟨-, heq⟩ | ⟨-, heq⟩ <;> rw [heq]
  exact getD_set_ne s.status _ _ (Ne.symm h)

theorem addToCluster_status_cases (n : Nat) (s : DBState) (i : Nat) :
    stGet (addToCluster n s).status i = stGet s.status i ∨
    stGet (addToCluster n s).status i = FrameStatus.INCLUSTER := by
  rcases eq_or_ne i n with rfl | hne
  · rcases Nat.lt_or_ge i s.status.length with hlt | hge
    · exact Or.inr (addToCluster_status_self hlt)
    · rcases addToCluster_eq i s with ⟨-, heq⟩ | ⟨-, heq⟩ <;> rw [heq]
      · exact Or.inl rfl
      · rw [show s.status.set i FrameStatus.INCLUSTER = s.status from
          List.set_eq_of_length_le hge]
        exact Or.inl rfl
  · exact Or.inl (addToCluster_status_ne hne)

theorem addToCluster_clusters (n : Nat) (s : DBState) :
    (addToCluster n s).clusters = s.clusters := by
  rcases addToCluster_eq n s with ⟨-, heq⟩ | ⟨-, heq⟩ <;> rw [heq]

theorem addToCluster_len_vis (n : Nat) (s : DBState) :
    (addToCluster n s).visited.length = s.visited.length := by
  rw [addToCluster_visited]

theorem addToCluster_len_st (n : Nat) (s : DBState) :
    (addToCluster n s).status.length = s.status.length := by
  rcases addToCluster_eq n s with ⟨-, heq⟩ | ⟨-, heq⟩ <;> rw [heq]
  simp

/-! Membership through the sort-unique duplicate removal. -/

theorem mem_insSorted {b a : Nat} : ∀ {l : List Nat},
    b ∈ insSorted a l ↔ b = a ∨ b ∈ l := by
  intro l
  induction l with
  | nil => simp [insSorted]
  | cons x t ih =>
    unfold insSorted
    by_cases h : a ≤ x
    · rw [if_pos h]
      simp
    · rw [if_neg h]
      rw [List.mem_cons, ih, List.mem_cons]
      tauto

theorem mem_sortNat {a : Nat} : ∀ {l : List Nat}, a ∈ sortNat l ↔ a ∈ l := by
  intro l
  induction l with
  | nil => simp [sortNat]
  | cons x t ih =>
    unfold sortNat
    rw [mem_insSorted, ih, List.mem_cons]

theorem mem_uniqConsec : ∀ (l : List Nat) (a : Nat),
    a ∈ uniqConsec l ↔ a ∈ l := by
  intro l
  induction l with
  | nil => simp [uniqConsec]
  | cons x t ih =>
    cases t with
    | nil => simp [uniqConsec]
    | cons y t2 =>
      intro a
      unfold uniqConsec
      by_cases hxy : x = y
      · rw [if_pos hxy, ih a]
        subst hxy
        simp
      · rw [if_neg hxy, List.mem_cons, ih a, List.mem_cons]
        simp

theorem mem_sortUnique {a : Nat} (l : List Nat) :
    a ∈ sortUnique l ↔ a ∈ l := by
  unfold sortUnique
  rw [mem_uniqConsec, mem_sortNat]

/-! ## The DBSCAN clustering invariant

`Inv P queue s` holds of the state at every point of the expansion loop
(with `queue` the remaining worklist) and, with `queue = []`, between
outer-loop iterations. -/

structure Inv (P : DBParams) (queue : List Nat) (s : DBState) : Prop where
  lenVis : s.visited.length = P.nframes
  lenSt : s.status.length = P.nframes
  qreach : ∀ w ∈ queue, reachable P w
  sound : ∀ f, stGet s.status f = FrameStatus.INCLUSTER → reachable P f
  complete : ∀ n ∈ framesToCluster P, isCore P n →
    visGet s.visited n = true → ∀ w ∈ regionQuery P n,
      stGet s.status w = FrameStatus.INCLUSTER ∨ w ∈ queue
  statusVis : ∀ f, stGet s.status f ≠ FrameStatus.UNASSIGNED →
    visGet s.visited f = true
  recMem : ∀ c ∈ s.clusters, ∀ p ∈ c, visGet s.visited p = true ∧
    stGet s.status p ≠ FrameStatus.NOISE ∧
    (stGet s.status p = FrameStatus.INCLUSTER ∨
      (isCore P p ∧ ∀ u ∈ regionQuery P p,
        stGet s.status u = FrameStatus.INCLUSTER))
  qfresh : ∀ w ∈ queue, stGet s.status w = FrameStatus.INCLUSTER ∨
    ∀ c ∈ s.clusters, w ∉ c
  cfMem : ∀ p ∈ s.cframes, visGet s.visited p = true ∧
    stGet s.status p ≠ FrameStatus.NOISE ∧
    (∀ c ∈ s.clusters, p ∉ c) ∧
    (stGet s.status p = FrameStatus.INCLUSTER ∨
      (isCore P p ∧ ∀ u ∈ regionQuery P p,
        stGet s.status u = FrameStatus.INCLUSTER ∨ u ∈ queue))
  visStat : ∀ f, f < P.nframes → visGet s.visited f = true →
    stGet s.status f = FrameStatus.NOISE ∨ (∃ c ∈ s.clusters, f ∈ c) ∨
    f ∈ s.cframes
  disj : ∀ f : Nat, s.clusters.countP (fun c => decide (f ∈ c)) ≤ 1

/-- The expansion step on an already-visited worklist head preserves the
invariant. -/
theorem inv_step_visited (P : DBParams) (n : Nat) (rest : List Nat)
    (s : DBState) (h : Inv P (n :: rest) s)
    (hv : visGet s.visited n = true) : Inv P rest (addToCluster n s) := by
  have hnmem : n ∈ framesToCluster P :=
    reachable_mem P (h.qreach n (List.mem_cons_self n rest))
  have hnlt : n < P.nframes := framesToCluster_lt P hnmem
  have hnst : n < s.status.length := by rw [h.lenSt]; exact hnlt
  rcases addToCluster_eq n s with ⟨hC, heq⟩ | ⟨hC, heq⟩
  · -- already INCLUSTER: state unchanged, worklist shrinks
    rw [heq]
    refine ⟨h.lenVis, h.lenSt, ?_, h.sound, ?_, h.statusVis, h.recMem, ?_,
      ?_, h.visStat, h.disj⟩
    · intro w hw
      exact h.qreach w (List.mem_cons_of_mem n hw)
    · intro m hm hcore hvm w hw
      rcases h.complete m hm hcore hvm w hw with hwC | hwq
      · exact Or.inl hwC
      · rcases List.mem_cons.mp hwq with rfl | hwr
        · exact Or.inl hC
        · exact Or.inr hwr
    · intro w hw
      exact h.qfresh w (List.mem_cons_of_mem n hw)
    · intro p hp
      obtain ⟨h1, h2, h3, h4⟩ := h.cfMem p hp
      refine ⟨h1, h2, h3, ?_⟩
      rcases h4 with h4 | ⟨hcore, h4⟩
      · exact Or.inl h4
      · refine Or.inr ⟨hcore, ?_⟩
        intro u hu
        rcases h4 u hu with huC | huq
        · exact Or.inl huC
        · rcases List.mem_cons.mp huq with rfl | hur
          · exact Or.inl hC
          · exact Or.inr hur
  · -- not yet INCLUSTER: appended to cframes, status set to INCLUSTER
    have hsC : ∀ i, stGet (addToCluster n s).status i =
        FrameStatus.INCLUSTER ↔
        (stGet s.status i = FrameStatus.INCLUSTER ∨ i = n) := by
      intro i
      constructor
      · intro hi
        rcases eq_or_ne i n with rfl | hne
        · exact Or.inr rfl
        · rw [addToCluster_status_ne hne] at hi
          exact Or.inl hi
      · rintro (hi | rfl)
        · exact addToCluster_C_keeps hi
        · exact addToCluster_status_self hnst
    have hNe : ∀ i, i ≠ n →
        stGet (addToCluster n s).status i = stGet s.status i :=
      fun i hi => addToCluster_status_ne hi
    have hvis : (addToCluster n s).visited = s.visited :=
      addToCluster_visited n s
    have hcl : (addToCluster n s).clusters = s.clusters :=
      addToCluster_clusters n s
    have hcf : (addToCluster n s).cframes = s.cframes ++ [n] := by
      rw [heq]
    refine ⟨?_, ?_, ?_, ?_, ?_, ?_, ?_, ?_, ?_, ?_, ?_⟩
    · rw [addToCluster_len_vis]
      exact h.lenVis
    · rw [addToCluster_len_st]
      exact h.lenSt
    · intro w hw
      exact h.qreach w (List.mem_cons_of_mem n hw)
    · intro f hf
      rcases (hsC f).mp hf with hf' | rfl
      · exact h.sound f hf'
      · exact h.qreach f (List.mem_cons_self f rest)
    · intro m hm hcore hvm w hw
      rw [hvis] at hvm
      rcases h.complete m hm hcore hvm w hw with hwC | hwq
      · exact Or.inl ((hsC w).mpr (Or.inl hwC))
      · rcases List.mem_cons.mp hwq with rfl | hwr
        · exact Or.inl ((hsC w).mpr (Or.inr rfl))
        · exact Or.inr hwr
    · intro f hf
      rw [hvis]
      rcases eq_or_ne f n with rfl | hne
      · exact hv
      · rw [hNe f hne] at hf
        exact h.statusVis f hf
    · intro c hc p hp
      rw [hcl] at hc
      obtain ⟨h1, h2, h3⟩ := h.recMem c hc p hp
      rw [hvis]
      refine ⟨h1, ?_, ?_⟩
      · rcases addToCluster_status_cases n s p with hcase | hcase <;>
          rw [hcase]
        · exact h2
        · simp
      · rcases h3 with h3 | ⟨hcore, h3⟩
        · exact Or.inl ((hsC p).mpr (Or.inl h3))
        · refine Or.inr ⟨hcore, ?_⟩
          intro u hu
          exact (hsC u).mpr (Or.inl (h3 u hu))
    · intro w hw
      rcases h.qfresh w (List.mem_cons_of_mem n hw) with hwC | hwnc
      · exact Or.inl ((hsC w).mpr (Or.inl hwC))
      · rw [hcl]
        exact Or.inr hwnc
    · intro p hp
      rw [hcf] at hp
      rcases List.mem_append.mp hp with hp' | hp'
      · obtain ⟨h1, h2, h3, h4⟩ := h.cfMem p hp'
        rw [hvis, hcl]
        refine ⟨h1, ?_, h3, ?_⟩
        · rcases addToCluster_status_cases n s p with hcase | hcase <;>
            rw [hcase]
          · exact h2
          · simp
        · rcases h4 with h4 | ⟨hcore, h4⟩
          · exact Or.inl ((hsC p).mpr (Or.inl h4))
          · refine Or.inr ⟨hcore, ?_⟩
            intro u hu
            rcases h4 u hu with huC | huq
            · exact Or.inl ((hsC u).mpr (Or.inl huC))
            · rcases List.mem_cons.mp huq with rfl | hur
              · exact Or.inl ((hsC u).mpr (Or.inr rfl))
              · exact Or.inr hur
      · have hp'' : p = n := by simpa using hp'
        subst hp''
        rw [hvis, hcl]
        refine ⟨hv, ?_, ?_, Or.inl ((hsC p).mpr (Or.inr rfl))⟩
        · rw [(hsC p).mpr (Or.inr rfl)]
          simp
        · intro c hc hpc
          rcases h.qfresh p (List.mem_cons_self p rest) with hpC | hpnc
          · exact hC hpC
          · exact hpnc c hc hpc
    · intro f hflt hfv
      rw [hvis] at hfv
      rw [hcl, hcf]
      rcases eq_or_ne f n with rfl | hne
      · exact Or.inr (Or.inr (List.mem_append.mpr (Or.inr (by simp))))
      · rcases h.visStat f hflt hfv with h1 | h1 | h1
        · rw [hNe f hne]
          exact Or.inl h1
        · exact Or.inr (Or.inl h1)
        · exact Or.inr (Or.inr (List.mem_append.mpr (Or.inl h1)))
    · intro f
      rw [hcl]
      exact h.disj f

/-- The expansion step on an unvisited worklist head (visit, region
query, optional growth, cluster add) preserves the invariant. -/
theorem inv_step_unvisited (P : DBParams) (n : Nat) (rest : List Nat)
    (s : DBState) (h : Inv P (n :: rest) s)
    (hv : visGet s.visited n = false) :
    Inv P (rest ++ (if P.minPoints ≤ ((regionQuery P n).length : Int)
        then regionQuery P n else []))
      (addToCluster n { s with visited := s.visited.set n true }) := by
  set g := (if P.minPoints ≤ ((regionQuery P n).length : Int)
    then regionQuery P n else []) with hg
  set s1 : DBState := { s with visited := s.visited.set n true } with hs1
  have hnmem : n ∈ framesToCluster P :=
    reachable_mem P (h.qreach n (List.mem_cons_self n rest))
  have hnlt : n < P.nframes := framesToCluster_lt P hnmem
  have hnst : n < s.status.length := by rw [h.lenSt]; exact hnlt
  have hnvl : n < s.visited.length := by rw [h.lenVis]; exact hnlt
  have hU : stGet s.status n = FrameStatus.UNASSIGNED := by
    by_contra hne
    rw [h.statusVis n hne] at hv
    exact absurd hv (by simp)
  have hC : stGet s1.status n ≠ FrameStatus.INCLUSTER := by
    show stGet s.status n ≠ FrameStatus.INCLUSTER
    rw [hU]
    simp
  have heq : addToCluster n s1 =
      { s1 with cframes := s1.cframes ++ [n]
                status := s1.status.set n .INCLUSTER } := by
    rcases addToCluster_eq n s1 with ⟨hC', -⟩ | ⟨-, heq'⟩
    · exact absurd hC' hC
    · exact heq'
  have hvis : (addToCluster n s1).visited = s.visited.set n true := by
    rw [heq]
  have hst : (addToCluster n s1).status = s.status.set n .INCLUSTER := by
    rw [heq]
  have hcl : (addToCluster n s1).clusters = s.clusters := by
    rw [heq]
  have hcf : (addToCluster n s1).cframes = s.cframes ++ [n] := by
    rw [heq]
  have hsC : ∀ i, stGet (addToCluster n s1).status i =
      FrameStatus.INCLUSTER ↔
      (stGet s.status i = FrameStatus.INCLUSTER ∨ i = n) := by
    intro i
    rw [hst]
    constructor
    · intro hi
      rcases eq_or_ne i n with rfl | hne
      · exact Or.inr rfl
      · rw [stGet, getD_set_ne s.status _ _ (Ne.symm hne)] at hi
        exact Or.inl hi
    · rintro (hi | rfl)
      · exact stGet_set_C_keeps hi
      · exact getD_set_self s.status _ _ hnst
  have hNe : ∀ i, i ≠ n →
      stGet (addToCluster n s1).status i = stGet s.status i := by
    intro i hi
    rw [hst, stGet, getD_set_ne s.status _ _ (Ne.symm hi)]
    rfl
  have hVn : visGet (addToCluster n s1).visited n = true := by
    rw [hvis]
    exact getD_set_self s.visited _ _ hnvl
  have hVne : ∀ i, i ≠ n →
      visGet (addToCluster n s1).visited i = visGet s.visited i := by
    intro i hi
    rw [hvis, visGet, getD_set_ne s.visited _ _ (Ne.symm hi)]
    rfl
  have hVkeep : ∀ i, visGet s.visited i = true →
      visGet (addToCluster n s1).visited i = true := by
    intro i hi
    rw [hvis]
    exact visGet_set_keeps hi
  have hgmem : ∀ w ∈ g, w ∈ regionQuery P n ∧ isCore P n := by
    intro w hw
    rw [hg] at hw
    by_cases hcore : P.minPoints ≤ ((regionQuery P n).length : Int)
    · rw [if_pos hcore] at hw
      exact ⟨hw, hcore⟩
    · rw [if_neg hcore] at hw
      exact absurd hw (by simp)
  refine ⟨?_, ?_, ?_, ?_, ?_, ?_, ?_, ?_, ?_, ?_, ?_⟩
  · rw [hvis]
    rw [List.length_set]
    exact h.lenVis
  · rw [hst, List.length_set]
    exact h.lenSt
  · intro w hw
    rcases List.mem_append.mp hw with hw' | hw'
    · exact h.qreach w (List.mem_cons_of_mem n hw')
    · obtain ⟨hwRQ, hcore⟩ := hgmem w hw'
      exact ⟨n, hnmem, hwRQ, hcore⟩
  · intro f hf
    rcases (hsC f).mp hf with hf' | rfl
    · exact h.sound f hf'
    · exact h.qreach f (List.mem_cons_self f rest)
  · intro m hm hcore hvm w hw
    rcases eq_or_ne m n with rfl | hmn
    · refine Or.inr (List.mem_append.mpr (Or.inr ?_))
      have hcore' : P.minPoints ≤ ((regionQuery P m).length : Int) := hcore
      rw [hg, if_pos hcore']
      exact hw
    · rw [hVne m hmn] at hvm
      rcases h.complete m hm hcore hvm w hw with hwC | hwq
      · exact Or.inl ((hsC w).mpr (Or.inl hwC))
      · rcases List.mem_cons.mp hwq with rfl | hwr
        · exact Or.inl ((hsC w).mpr (Or.inr rfl))
        · exact Or.inr (List.mem_append.mpr (Or.inl hwr))
  · intro f hf
    rcases eq_or_ne f n with rfl | hne
    · exact hVn
    · rw [hNe f hne] at hf
      rw [hVne f hne]
      exact h.statusVis f hf
  · intro c hc p hp
    rw [hcl] at hc
    obtain ⟨h1, h2, h3⟩ := h.recMem c hc p hp
    refine ⟨hVkeep p h1, ?_, ?_⟩
    · rcases eq_or_ne p n with rfl | hne
      · rw [(hsC p).mpr (Or.inr rfl)]
        simp
      · rw [hNe p hne]
        exact h2
    · rcases h3 with h3 | ⟨hcore, h3⟩
      · exact Or.inl ((hsC p).mpr (Or.inl h3))
      · refine Or.inr ⟨hcore, ?_⟩
        intro u hu
        exact (hsC u).mpr (Or.inl (h3 u hu))
  · intro w hw
    rcases List.mem_append.mp hw with hw' | hw'
    · rcases h.qfresh w (List.mem_cons_of_mem n hw') with hwC | hwnc
      · exact Or.inl ((hsC w).mpr (Or.inl hwC))
      · rw [hcl]
        exact Or.inr hwnc
    · obtain ⟨hwRQ, -⟩ := hgmem w hw'
      by_cases hwC : stGet (addToCluster n s1).status w =
          FrameStatus.INCLUSTER
      · exact Or.inl hwC
      · refine Or.inr ?_
        rw [hcl]
        intro c hc hwc
        obtain ⟨-, -, h3⟩ := h.recMem c hc w hwc
        rcases h3 with h3 | ⟨-, h3⟩
        · exact hwC ((hsC w).mpr (Or.inl h3))
        · have hnRQ : n ∈ regionQuery P w := regionQuery_symm P hnmem hwRQ
          have := h3 n hnRQ
          rw [hU] at this
          exact absurd this (by simp)
  · intro p hp
    rw [hcf] at hp
    rcases List.mem_append.mp hp with hp' | hp'
    · obtain ⟨h1, h2, h3, h4⟩ := h.cfMem p hp'
      rw [hcl]
      refine ⟨hVkeep p h1, ?_, h3, ?_⟩
      · rcases eq_or_ne p n with rfl | hne
        · rw [(hsC p).mpr (Or.inr rfl)]
          simp
        · rw [hNe p hne]
          exact h2
      · rcases h4 with h4 | ⟨hcore, h4⟩
        · exact Or.inl ((hsC p).mpr (Or.inl h4))
        · refine Or.inr ⟨hcore, ?_⟩
          intro u hu
          rcases h4 u hu with huC | huq
          · exact Or.inl ((hsC u).mpr (Or.inl huC))
          · rcases List.mem_cons.mp huq with rfl | hur
            · exact Or.inl ((hsC u).mpr (Or.inr rfl))
            · exact Or.inr (List.mem_append.mpr (Or.inl hur))
    · have hp'' : p = n := by simpa using hp'
      subst hp''
      rw [hcl]
      refine ⟨hVn, ?_, ?_, Or.inl ((hsC p).mpr (Or.inr rfl))⟩
      · rw [(hsC p).mpr (Or.inr rfl)]
        simp
      · intro c hc hpc
        obtain ⟨h1, -, -⟩ := h.recMem c hc p hpc
        rw [h1] at hv
        exact absurd hv (by simp)
  · intro f hflt hfv
    rw [hcl, hcf]
    rcases eq_or_ne f n with rfl | hne
    · exact Or.inr (Or.inr (List.mem_append.mpr (Or.inr (by simp))))
    · rw [hVne f hne] at hfv
      rcases h.visStat f hflt hfv with h1 | h1 | h1
      · rw [hNe f hne]
        exact Or.inl h1
      · exact Or.inr (Or.inl h1)
      · exact Or.inr (Or.inr (List.mem_append.mpr (Or.inl h1)))
  · intro f
    rw [hcl]
    exact h.disj f

theorem regionQuery_length_le (P : DBParams) (n : Nat) :
    (regionQuery P n).length ≤ P.nframes := by
  have h1 : (regionQuery P n).length ≤ (framesToCluster P).length :=
    List.length_filter_le _ _
  have h2 : (framesToCluster P).length ≤ (List.range P.nframes).length :=
    List.length_filter_le _ _
  rw [List.length_range] at h2
  omega

/-- With the fuel supplied by `expandFuel`, the expansion loop drains
its worklist completely and preserves the invariant throughout. -/
theorem expand_inv (P : DBParams) : ∀ (fuel : Nat) (queue : List Nat)
    (s : DBState), expandFuel P queue s ≤ fuel → Inv P queue s →
    Inv P [] (expand P fuel queue s) := by
  intro fuel
  induction fuel with
  | zero =>
    intro queue s hfuel h
    have hq : queue = [] := by
      unfold expandFuel at hfuel
      have : queue.length = 0 := by omega
      exact List.eq_nil_of_length_eq_zero this
    subst hq
    simpa [expand] using h
  | succ fuel ih =>
    intro queue s hfuel h
    cases queue with
    | nil => simpa [expand] using h
    | cons n rest =>
      by_cases hv : visGet s.visited n = true
      · have hexp : expand P (fuel + 1) (n :: rest) s =
            expand P fuel rest (addToCluster n s) := by
          rw [expand, if_pos hv]
        rw [hexp]
        apply ih
        · unfold expandFuel at hfuel ⊢
          rw [addToCluster_visited]
          rw [List.length_cons] at hfuel
          omega
        · exact inv_step_visited P n rest s h hv
      · have hv' : visGet s.visited n = false := by simpa using hv
        have hexp : expand P (fuel + 1) (n :: rest) s =
            expand P fuel
              (rest ++ (if P.minPoints ≤ ((regionQuery P n).length : Int)
                then regionQuery P n else []))
              (addToCluster n { s with visited := s.visited.set n true }) := by
          rw [expand, if_neg hv]
        rw [hexp]
        set g := (if P.minPoints ≤ ((regionQuery P n).length : Int)
          then regionQuery P n else []) with hgdef
        apply ih
        · unfold expandFuel at hfuel ⊢
          rw [addToCluster_visited]
          dsimp only []
          have hcnt : (s.visited.set n true).count false <
              s.visited.count false := count_false_set_true hv'
          have hgle : g.length ≤ P.nframes := by
            rw [hgdef]
            by_cases hcore : P.minPoints ≤ ((regionQuery P n).length : Int)
            · rw [if_pos hcore]
              exact regionQuery_length_le P n
            · rw [if_neg hcore]
              simp
          obtain ⟨k, hk⟩ : ∃ k, s.visited.count false = k + 1 :=
            ⟨s.visited.count false - 1, by omega⟩
          have hmul : (s.visited.set n true).count false * (P.nframes + 1) ≤
              k * (P.nframes + 1) :=
            Nat.mul_le_mul_right _ (by omega)
          have hsucc : (k + 1) * (P.nframes + 1) =
              k * (P.nframes + 1) + (P.nframes + 1) := by
            rw [Nat.add_mul, one_mul]
          rw [List.length_cons, hk, hsucc] at hfuel
          rw [List.length_append]
          omega
        · exact inv_step_unvisited P n rest s h hv'

theorem expand_clusters (P : DBParams) : ∀ (fuel : Nat) (queue : List Nat)
    (s : DBState), (expand P fuel queue s).clusters = s.clusters := by
  intro fuel
  induction fuel with
  | zero =>
    intro queue s
    cases queue <;> rfl
  | succ fuel ih =>
    intro queue s
    cases queue with
    | nil => rfl
    | cons n rest =>
      by_cases hv : visGet s.visited n = true
      · rw [expand, if_pos hv, ih, addToCluster_clusters]
      · rw [expand, if_neg hv, ih, addToCluster_clusters]

theorem expand_visited_keeps (P : DBParams) : ∀ (fuel : Nat)
    (queue : List Nat) (s : DBState) (f : Nat),
    visGet s.visited f = true →
    visGet (expand P fuel queue s).visited f = true := by
  intro fuel
  induction fuel with
  | zero =>
    intro queue s f hf
    cases queue <;> exact hf
  | succ fuel ih =>
    intro queue s f hf
    cases queue with
    | nil => exact hf
    | cons n rest =>
      by_cases hv : visGet s.visited n = true
      · rw [expand, if_pos hv]
        apply ih
        rw [addToCluster_visited]
        exact hf
      · rw [expand, if_neg hv]
        apply ih
        rw [addToCluster_visited]
        exact visGet_set_keeps hf

theorem expand_rank (P : DBParams) : ∀ (fuel : Nat) (queue : List Nat)
    (s : DBState) (f : Nat),
    statusRank (stGet s.status f) ≤
      statusRank (stGet (expand P fuel queue s).status f) := by
  intro fuel
  induction fuel with
  | zero =>
    intro queue s f
    cases queue <;> exact Nat.le_refl _
  | succ fuel ih =>
    intro queue s f
    cases queue with
    | nil => exact Nat.le_refl _
    | cons n rest =>
      have hstep : ∀ (s' : DBState), statusRank (stGet s'.status f) ≤
          statusRank (stGet (addToCluster n s').status f) := by
        intro s'
        rcases addToCluster_status_cases n s' f with hc | hc
        · rw [hc]
        · rw [hc]
          exact statusRank_le_two _
      by_cases hv : visGet s.visited n = true
      · rw [expand, if_pos hv]
        exact le_trans (hstep s) (ih _ _ f)
      · rw [expand, if_neg hv]
        refine le_trans ?_ (ih _ _ f)
        exact hstep { s with visited := s.visited.set n true }

theorem initState_inv (P : DBParams) : Inv P [] (initState P) := by
  have hvis : ∀ f, visGet (initState P).visited f = true → P.nframes ≤ f := by
    intro f hf
    by_contra hlt
    rw [show visGet (initState P).visited f = false from
      getD_replicate _ _ (by omega)] at hf
    exact absurd hf (by simp)
  have hst : ∀ f, stGet (initState P).status f = FrameStatus.UNASSIGNED := by
    intro f
    rcases Nat.lt_or_ge f P.nframes with hlt | hge
    · exact getD_replicate _ _ hlt
    · refine getD_oob _ _ ?_
      have : (initState P).status.length = P.nframes := by simp [initState]
      omega
  refine ⟨by simp [initState], by simp [initState], ?_, ?_, ?_, ?_, ?_, ?_,
    ?_, ?_, ?_⟩
  · intro w hw
    exact absurd hw (by simp)
  · intro f hf
    rw [hst f] at hf
    exact absurd hf (by simp)
  · intro n hn hcore hvn
    have := hvis n hvn
    have := framesToCluster_lt P hn
    omega
  · intro f hf
    exact absurd (hst f) hf
  · intro c hc
    exact absurd hc (by simp [initState])
  · intro w hw
    exact absurd hw (by simp)
  · intro p hp
    exact absurd hp (by simp [initState])
  · intro f hflt hfv
    have := hvis f hfv
    omega
  · intro f
    simp [initState]

/-- One outer iteration preserves the invariant; moreover the processed
point is visited afterwards, visited frames stay visited, and statuses
move only up the rank order. -/
theorem clusterStep_inv (P : DBParams) (s : DBState) (point : Nat)
    (hp : point ∈ framesToCluster P) (h : Inv P [] s)
    (hcf : s.cframes = []) :
    Inv P [] (clusterStep P s point) ∧
    (clusterStep P s point).cframes = [] ∧
    visGet (clusterStep P s point).visited point = true ∧
    (∀ f, visGet s.visited f = true →
      visGet (clusterStep P s point).visited f = true) ∧
    (∀ f, statusRank (stGet s.status f) ≤
      statusRank (stGet (clusterStep P s point).status f)) := by
  have hplt : point < P.nframes := framesToCluster_lt P hp
  have hpst : point < s.status.length := by rw [h.lenSt]; exact hplt
  have hpvl : point < s.visited.length := by rw [h.lenVis]; exact hplt
  unfold clusterStep
  by_cases hv : visGet s.visited point = true
  · rw [if_pos hv]
    exact ⟨h, hcf, hv, fun f hf => hf, fun f => Nat.le_refl _⟩
  · rw [if_neg hv]
    have hv' : visGet s.visited point = false := by simpa using hv
    have hU : stGet s.status point = FrameStatus.UNASSIGNED := by
      by_contra hne
      rw [h.statusVis point hne] at hv
      exact absurd rfl hv
    by_cases hnoise : ((regionQuery P point).length : Int) < P.minPoints
    · rw [if_pos hnoise]
      dsimp only []
      have hstp : stGet ((s.status.set point FrameStatus.NOISE)) point =
          FrameStatus.NOISE := getD_set_self _ _ _ hpst
      have hstne : ∀ f, f ≠ point →
          stGet (s.status.set point FrameStatus.NOISE) f =
            stGet s.status f := by
        intro f hf
        exact getD_set_ne _ _ _ (Ne.symm hf)
      have hvp : visGet (s.visited.set point true) point = true :=
        getD_set_self _ _ _ hpvl
      have hvne : ∀ f, f ≠ point →
          visGet (s.visited.set point true) f = visGet s.visited f := by
        intro f hf
        exact getD_set_ne _ _ _ (Ne.symm hf)
      refine ⟨⟨?_, ?_, ?_, ?_, ?_, ?_, ?_, ?_, ?_, ?_, ?_⟩, hcf, hvp,
        fun f hf => visGet_set_keeps hf, ?_⟩
      · rw [List.length_set]
        exact h.lenVis
      · rw [List.length_set]
        exact h.lenSt
      · intro w hw
        exact absurd hw (by simp)
      · intro f hf
        rcases eq_or_ne f point with rfl | hne
        · rw [hstp] at hf
          exact absurd hf (by simp)
        · rw [hstne f hne] at hf
          exact h.sound f hf
      · intro m hm hcore hvm w hw
        rcases eq_or_ne m point with rfl | hmn
        · exact absurd (show P.minPoints ≤ ((regionQuery P m).length : Int)
            from hcore) (by omega)
        · rw [hvne m hmn] at hvm
          rcases h.complete m hm hcore hvm w hw with hwC | hwq
          · rcases eq_or_ne w point with rfl | hwn
            · rw [hU] at hwC
              exact absurd hwC (by simp)
            · rw [hstne w hwn]
              exact Or.inl hwC
          · exact absurd hwq (by simp)
      · intro f hf
        rcases eq_or_ne f point with rfl | hne
        · exact hvp
        · rw [hstne f hne] at hf
          rw [hvne f hne]
          exact h.statusVis f hf
      · intro c hc p hpc
        obtain ⟨h1, h2, h3⟩ := h.recMem c hc p hpc
        have hpn : p ≠ point := by
          intro hpe
          subst hpe
          rw [h1] at hv
          exact absurd rfl hv
        refine ⟨visGet_set_keeps h1, by rw [hstne p hpn]; exact h2, ?_⟩
        rcases h3 with h3 | ⟨hcore, h3⟩
        · rw [hstne p hpn]
          exact Or.inl h3
        · refine Or.inr ⟨hcore, ?_⟩
          intro u hu
          have hun : u ≠ point := by
            intro hue
            subst hue
            have := h3 u hu
            rw [hU] at this
            exact absurd this (by simp)
          rw [hstne u hun]
          exact h3 u hu
      · intro w hw
        exact absurd hw (by simp)
      · intro p hpc
        rw [hcf] at hpc
        exact absurd hpc (by simp)
      · intro f hflt hfv
        rcases eq_or_ne f point with rfl | hne
        · exact Or.inl hstp
        · rw [hvne f hne] at hfv
          rcases h.visStat f hflt hfv with h1 | h1 | h1
          · rw [hstne f hne]
            exact Or.inl h1
          · exact Or.inr (Or.inl h1)
          · rw [hcf] at h1
            exact absurd h1 (by simp)
      · intro f
        exact h.disj f
      · intro f
        rcases eq_or_ne f point with rfl | hne
        · rw [hstp, hU]
          decide
        · rw [hstne f hne]
    · rw [if_neg hnoise]
      dsimp only []
      have hcore : isCore P point := not_lt.mp hnoise
      set s1' : DBState := { s with visited := s.visited.set point true
                                    cframes := [point] } with hs1
      have hInvq : Inv P (regionQuery P point) s1' := by
        have hvp : visGet s1'.visited point = true :=
          getD_set_self _ _ _ hpvl
        have hvne : ∀ f, f ≠ point →
            visGet s1'.visited f = visGet s.visited f := by
          intro f hf
          exact getD_set_ne _ _ _ (Ne.symm hf)
        refine ⟨?_, h.lenSt, ?_, h.sound, ?_, ?_, ?_, ?_, ?_, ?_, h.disj⟩
        · show (s.visited.set point true).length = P.nframes
          rw [List.length_set]
          exact h.lenVis
        · intro w hw
          exact ⟨point, hp, hw, hcore⟩
        · intro m hm hcorem hvm w hw
          rcases eq_or_ne m point with rfl | hmn
          · exact Or.inr hw
          · rw [hvne m hmn] at hvm
            rcases h.complete m hm hcorem hvm w hw with hwC | hwq
            · exact Or.inl hwC
            · exact absurd hwq (by simp)
        · intro f hf
          rcases eq_or_ne f point with rfl | hne
          · exact hvp
          · rw [hvne f hne]
            exact h.statusVis f hf
        · intro c hc p hpc
          obtain ⟨h1, h2, h3⟩ := h.recMem c hc p hpc
          exact ⟨visGet_set_keeps h1, h2, h3⟩
        · intro w hw
          by_cases hwC : stGet s1'.status w = FrameStatus.INCLUSTER
          · exact Or.inl hwC
          · refine Or.inr ?_
            intro c hc hwc
            obtain ⟨-, -, h3⟩ := h.recMem c hc w hwc
            rcases h3 with h3 | ⟨-, h3⟩
            · exact hwC h3
            · have hpRQ : point ∈ regionQuery P w :=
                regionQuery_symm P hp hw
              have := h3 point hpRQ
              rw [hU] at this
              exact absurd this (by simp)
        · intro p hpc
          have hpe : p = point := by simpa using hpc
          subst hpe
          refine ⟨hvp, by rw [show stGet s1'.status p = stGet s.status p
              from rfl, hU]; simp, ?_, ?_⟩
          · intro c hc hpcl
            obtain ⟨h1, -, -⟩ := h.recMem c hc p hpcl
            rw [h1] at hv
            exact absurd rfl hv
          · exact Or.inr ⟨hcore, fun u hu => Or.inr hu⟩
        · intro f hflt hfv
          rcases eq_or_ne f point with rfl | hne
          · exact Or.inr (Or.inr (by simp))
          · rw [hvne f hne] at hfv
            rcases h.visStat f hflt hfv with h1 | h1 | h1
            · exact Or.inl h1
            · exact Or.inr (Or.inl h1)
            · rw [hcf] at h1
              exact absurd h1 (by simp)
      have hInv2 : Inv P [] (expand P
          (expandFuel P (regionQuery P point) s1') (regionQuery P point)
          s1') :=
        expand_inv P _ _ _ (Nat.le_refl _) hInvq
      set s2 : DBState := expand P
        (expandFuel P (regionQuery P point) s1') (regionQuery P point) s1'
        with hs2
      refine ⟨⟨hInv2.lenVis, hInv2.lenSt, ?_, hInv2.sound, ?_,
        hInv2.statusVis, ?_, ?_, ?_, ?_, ?_⟩, rfl, ?_, ?_, ?_⟩
      · intro w hw
        exact absurd hw (by simp)
      · intro m hm hcorem hvm w hw
        exact hInv2.complete m hm hcorem hvm w hw
      · intro c hc p hpc
        show visGet s2.visited p = true ∧ _
        rcases List.mem_append.mp hc with hc' | hc'
        · exact hInv2.recMem c hc' p hpc
        · have hce : c = sortUnique s2.cframes := by simpa using hc'
          subst hce
          rw [mem_sortUnique] at hpc
          obtain ⟨h1, h2, -, h4⟩ := hInv2.cfMem p hpc
          refine ⟨h1, h2, ?_⟩
          rcases h4 with h4 | ⟨hcorep, h4⟩
          · exact Or.inl h4
          · refine Or.inr ⟨hcorep, ?_⟩
            intro u hu
            rcases h4 u hu with huC | huq
            · exact huC
            · exact absurd huq (by simp)
      · intro w hw
        exact absurd hw (by simp)
      · intro p hpc
        exact absurd hpc (by simp)
      · intro f hflt hfv
        rcases hInv2.visStat f hflt hfv with h1 | h1 | h1
        · exact Or.inl h1
        · obtain ⟨c, hc, hfc⟩ := h1
          exact Or.inr (Or.inl ⟨c, List.mem_append.mpr (Or.inl hc), hfc⟩)
        · refine Or.inr (Or.inl ⟨sortUnique s2.cframes, ?_, ?_⟩)
          · exact List.mem_append.mpr (Or.inr (by simp))
          · rw [mem_sortUnique]
            exact h1
      · intro f
        rw [List.countP_append]
        by_cases hfc : f ∈ sortUnique s2.cframes
        · have h0 : s2.clusters.countP (fun c => decide (f ∈ c)) = 0 := by
            rw [List.countP_eq_zero]
            intro c hc
            rw [mem_sortUnique] at hfc
            obtain ⟨-, -, h3, -⟩ := hInv2.cfMem f hfc
            simp [h3 c hc]
          rw [h0]
          simp [hfc]
        · have h1 : List.countP (fun c => decide (f ∈ c))
              [sortUnique s2.cframes] = 0 := by
            simp [hfc]
          rw [h1]
          simpa using hInv2.disj f
      · show visGet s2.visited point = true
        rw [hs2]
        apply expand_visited_keeps
        exact getD_set_self _ _ _ hpvl
      · intro f hf
        show visGet s2.visited f = true
        rw [hs2]
        apply expand_visited_keeps
        exact visGet_set_keeps hf
      · intro f
        show statusRank (stGet s.status f) ≤ statusRank (stGet s2.status f)
        rw [hs2]
        exact expand_rank P _ _ s1' f

/-- The outer loop over any list of candidate frames preserves the
invariant, visits every processed frame, and moves statuses only up the
rank order. -/
theorem clusterLoop_inv (P : DBParams) : ∀ (L : List Nat) (s : DBState),
    (∀ p ∈ L, p ∈ framesToCluster P) → Inv P [] s → s.cframes = [] →
    Inv P [] (clusterLoop P s L) ∧ (clusterLoop P s L).cframes = [] ∧
    (∀ p ∈ L, visGet (clusterLoop P s L).visited p = true) ∧
    (∀ f, visGet s.visited f = true →
      visGet (clusterLoop P s L).visited f = true) ∧
    (∀ f, statusRank (stGet s.status f) ≤
      statusRank (stGet (clusterLoop P s L).status f)) := by
  intro L
  induction L with
  | nil =>
    intro s hL h hcf
    exact ⟨h, hcf, by simp, fun f hf => hf, fun f => Nat.le_refl _⟩
  | cons p rest ih =>
    intro s hL h hcf
    have hp : p ∈ framesToCluster P := hL p (by simp)
    obtain ⟨h1, h2, h3, h4, h5⟩ := clusterStep_inv P s p hp h hcf
    obtain ⟨g1, g2, g3, g4, g5⟩ := ih (clusterStep P s p)
      (fun q hq => hL q (List.mem_cons_of_mem p hq)) h1 h2
    refine ⟨g1, g2, ?_, ?_, ?_⟩
    · intro q hq
      rcases List.mem_cons.mp hq with rfl | hq'
      · exact g4 q h3
      · exact g3 q hq'
    · intro f hf
      exact g4 f (h4 f hf)
    · intro f
      exact le_trans (h5 f) (g5 f)

/-- The invariant holds of the final clustering state, and every
candidate frame has been visited. -/
theorem cluster_inv (P : DBParams) :
    Inv P [] (cluster P) ∧ (cluster P).cframes = [] ∧
    (∀ p ∈ framesToCluster P, visGet (cluster P).visited p = true) := by
  obtain ⟨h1, h2, h3, -, -⟩ := clusterLoop_inv P (framesToCluster P)
    (initState P) (fun p hp => hp) (initState_inv P) rfl
  exact ⟨h1, h2, h3⟩

/-- Characterization of the final `INCLUSTER` status: a frame ends
`INCLUSTER` exactly when it lies strictly within epsilon of a core
point. -/
theorem status_C_iff_reachable (P : DBParams) (f : Nat) :
    stGet (cluster P).status f = FrameStatus.INCLUSTER ↔ reachable P f := by
  obtain ⟨hInv, -, hVis⟩ := cluster_inv P
  constructor
  · exact hInv.sound f
  · rintro ⟨n, hn, hf, hcore⟩
    rcases hInv.complete n hn hcore (hVis n hn) f hf with hC | hq
    · exact hC
    · exact absurd hq (by simp)

theorem reachable_of_le {nf : Nat} {mp : Int} {dm : Nat → Nat → ℚ}
    {ig : Nat → Bool} {e1 e2 : ℚ} (h : e1 ≤ e2) {f : Nat}
    (hr : reachable ⟨nf, mp, e1, dm, ig⟩ f) :
    reachable ⟨nf, mp, e2, dm, ig⟩ f := by
  obtain ⟨n, hn, hfRQ, hcore⟩ := hr
  have hsub : List.Sublist (regionQuery ⟨nf, mp, e1, dm, ig⟩ n)
      (regionQuery ⟨nf, mp, e2, dm, ig⟩ n) := by
    apply List.monotone_filter_right
    intro q hq
    rw [Bool.and_eq_true] at hq
    have hq1 : decide (q ≠ n) = true := hq.1
    have hq2 : (⟨nf, mp, e1, dm, ig⟩ : DBParams).getElement n q < e1 :=
      of_decide_eq_true hq.2
    rw [Bool.and_eq_true]
    refine ⟨hq1, decide_eq_true ?_⟩
    show (⟨nf, mp, e1, dm, ig⟩ : DBParams).getElement n q < e2
    exact lt_of_lt_of_le hq2 h
  refine ⟨n, hn, hsub.subset hfRQ, ?_⟩
  show mp ≤ ((regionQuery ⟨nf, mp, e2, dm, ig⟩ n).length : Int)
  have hlen : (regionQuery ⟨nf, mp, e1, dm, ig⟩ n).length ≤
      (regionQuery ⟨nf, mp, e2, dm, ig⟩ n).length := hsub.length_le
  have hc : mp ≤ ((regionQuery ⟨nf, mp, e1, dm, ig⟩ n).length : Int) :=
    hcore
  omega

/-- **C8**: for a fixed distance matrix, candidate set and `minpoints`,
running DBSCAN with a larger epsilon never decreases the number of
frames that end with status `INCLUSTER`. -/
theorem dbscan_epsilon_monotone (nf : Nat) (mp : Int) (dm : Nat → Nat → ℚ)
    (ig : Nat → Bool) (e1 e2 : ℚ) (h : e1 ≤ e2) :
    nonNoiseCount ⟨nf, mp, e1, dm, ig⟩ ≤
      nonNoiseCount ⟨nf, mp, e2, dm, ig⟩ := by
  show (List.range nf).countP _ ≤ (List.range nf).countP _
  apply List.countP_mono_left
  intro f hf hp
  rw [beq_iff_eq] at hp ⊢
  rw [status_C_iff_reachable] at hp ⊢
  exact reachable_of_le h hp

/-- Witness for C8 on the concrete 3-frame example, at epsilons 10 and
11. -/
theorem dbscan_epsilon_monotone_witness :
    nonNoiseCount ⟨3, 2, 10, exDmat, fun _ => false⟩ ≤
      nonNoiseCount ⟨3, 2, 11, exDmat, fun _ => false⟩ :=
  dbscan_epsilon_monotone 3 2 exDmat (fun _ => false) 10 11 (by decide)

theorem clusterLoop_append (P : DBParams) (l1 l2 : List Nat) :
    ∀ s, clusterLoop P s (l1 ++ l2) =
      clusterLoop P (clusterLoop P s l1) l2 := by
  induction l1 with
  | nil => intro s; rfl
  | cons p rest ih =>
    intro s
    show clusterLoop P (clusterStep P s p) (rest ++ l2) = _
    rw [ih (clusterStep P s p)]
    rfl

/-- **C1** (amended): after `Cluster_DBSCAN::Cluster`, every non-ignored
frame is either a member of exactly one recorded cluster (and not marked
`NOISE`) or marked `NOISE` (and a member of none); no frame belongs to
two different clusters; and across the run statuses move only up the
order `UNASSIGNED → NOISE → INCLUSTER` — in particular `INCLUSTER` never
reverts, while a `NOISE` mark may later be upgraded to `INCLUSTER` when
a subsequent core point's expansion reaches the frame. -/
theorem dbscan_partition (P : DBParams) :
    (∀ f ∈ framesToCluster P,
      ((cluster P).clusters.countP (fun c => decide (f ∈ c)) = 1 ∧
        stGet (cluster P).status f ≠ FrameStatus.NOISE) ∨
      (stGet (cluster P).status f = FrameStatus.NOISE ∧
        (cluster P).clusters.countP (fun c => decide (f ∈ c)) = 0)) ∧
    (∀ f : Nat,
      (cluster P).clusters.countP (fun c => decide (f ∈ c)) ≤ 1) ∧
    (∀ l1 l2, framesToCluster P = l1 ++ l2 → ∀ f,
      statusRank (stGet (clusterLoop P (initState P) l1).status f) ≤
        statusRank (stGet (cluster P).status f)) ∧
    (∀ l1 l2, framesToCluster P = l1 ++ l2 → ∀ f,
      stGet (clusterLoop P (initState P) l1).status f =
        FrameStatus.INCLUSTER →
      stGet (cluster P).status f = FrameStatus.INCLUSTER) := by
  obtain ⟨hInv, hcf, hVis⟩ := cluster_inv P
  have hrank : ∀ l1 l2, framesToCluster P = l1 ++ l2 → ∀ f,
      statusRank (stGet (clusterLoop P (initState P) l1).status f) ≤
        statusRank (stGet (cluster P).status f) := by
    intro l1 l2 hsplit f
    have hmid := clusterLoop_inv P l1 (initState P)
      (fun p hp => by rw [hsplit]; exact List.mem_append.mpr (Or.inl hp))
      (initState_inv P) rfl
    have hrest := clusterLoop_inv P l2 (clusterLoop P (initState P) l1)
      (fun p hp => by rw [hsplit]; exact List.mem_append.mpr (Or.inr hp))
      hmid.1 hmid.2.1
    have hfin : cluster P =
        clusterLoop P (clusterLoop P (initState P) l1) l2 := by
      unfold cluster
      rw [hsplit]
      exact clusterLoop_append P l1 l2 (initState P)
    rw [hfin]
    exact hrest.2.2.2.2 f
  refine ⟨?_, hInv.disj, hrank, ?_⟩
  · intro f hf
    have hflt : f < P.nframes := framesToCluster_lt P hf
    rcases hInv.visStat f hflt (hVis f hf) with h1 | h1 | h1
    · refine Or.inr ⟨h1, ?_⟩
      rw [List.countP_eq_zero]
      intro c hc
      rw [decide_eq_true_eq]
      intro hfc
      exact (hInv.recMem c hc f hfc).2.1 h1
    · obtain ⟨c, hc, hfc⟩ := h1
      refine Or.inl ⟨?_, (hInv.recMem c hc f hfc).2.1⟩
      have hpos : 0 < (cluster P).clusters.countP
          (fun c => decide (f ∈ c)) := by
        rw [List.countP_pos_iff]
        exact ⟨c, hc, by rw [decide_eq_true_eq]; exact hfc⟩
      have hle := hInv.disj f
      omega
    · rw [hcf] at h1
      exact absurd h1 (by simp)
  · intro l1 l2 hsplit f hmid
    have := hrank l1 l2 hsplit f
    rw [hmid] at this
    exact statusRank_two _ (le_trans (by decide) this)

/-- Witness for C1 (amended) on the concrete 3-frame example: frame 0
ends in exactly one of the two final states, and its status rank only
grows from the state after the first outer iteration to the end. -/
theorem dbscan_partition_witness :
    ((((cluster exP).clusters.countP (fun c => decide (0 ∈ c)) = 1 ∧
        stGet (cluster exP).status 0 ≠ FrameStatus.NOISE) ∨
      (stGet (cluster exP).status 0 = FrameStatus.NOISE ∧
        (cluster exP).clusters.countP (fun c => decide (0 ∈ c)) = 0))) ∧
    statusRank (stGet (clusterLoop exP (initState exP) [0]).status 0) ≤
      statusRank (stGet (cluster exP).status 0) :=
  ⟨(dbscan_partition exP).1 0 (by decide),
   (dbscan_partition exP).2.2.1 [0] [1, 2] (by decide) 0⟩

/-- Counterexample to C1 as stated: the claim's transition rule allows
only `UNASSIGNED → {NOISE, INCLUSTER}`, but in the concrete 3-frame run
(`minpoints 2`, `epsilon 10`, distances 9/9/15) frame 0 is marked
`NOISE` by the first outer iteration — it has a single neighbor — and is
later upgraded to `INCLUSTER` when core frame 1's expansion reaches it:
a `NOISE → INCLUSTER` transition occurs in the real run (the run over
`[1, 2]` continues exactly the state reached after `[0]`). -/
theorem dbscan_noise_upgrade_counterexample :
    framesToCluster exP = [0, 1, 2] ∧
    stGet (clusterLoop exP (initState exP) [0]).status 0 =
      FrameStatus.NOISE ∧
    cluster exP =
      clusterLoop exP (clusterLoop exP (initState exP) [0]) [1, 2] ∧
    stGet (cluster exP).status 0 = FrameStatus.INCLUSTER :=
  ⟨by decide, by decide, rfl, by decide⟩

end Cpptraj
